import Mathlib

/-!
Verification of the `analyze_api_logs` engine (function.py).

The Python source is shallowly embedded below: dicts of accumulators become
insertion-ordered association lists, floats become exact rationals, the
`datetime` objects produced by `fromisoformat` become the `PyDateTime`
structure (wall-clock fields plus an optional UTC offset in seconds, so that
offset-naive and offset-aware values are distinguishable, as in CPython), and
the one exception that can escape the per-record loop (comparing a naive and
an aware datetime) is modelled with `Except`.
-/

/-- Python value found in one of the numeric-expected fields of a raw log
dict: absent (missing key or `None`), an `int`, a `float` (modelled as an
exact rational), or a present but non-numeric value. -/
inductive PyVal where
  | absent
  | int (z : ℤ)
  | float (q : ℚ)
  | nonNumeric
deriving DecidableEq

/-- One raw log entry, the dict the engine receives (untrusted, §3 of the
spec).  The two size fields of the source are read but never used by
`analyze_api_logs`, so they are not tracked. -/
structure RawRecord where
  timestamp : Option String
  endpoint : Option String
  method : Option String
  response_time_ms : PyVal
  status_code : PyVal
  user_id : Option String
deriving DecidableEq

/-- The datetime object `datetime.fromisoformat` yields: wall-clock fields
plus `utcoffset` in seconds (`none` for an offset-naive value). -/
structure PyDateTime where
  year : Nat
  month : Nat
  day : Nat
  hour : Nat
  minute : Nat
  second : Nat
  microsecond : Nat
  utcoffset : Option Int
deriving DecidableEq

/-- Gregorian leap year, as `calendar.isleap`. -/
def isLeap (y : Nat) : Bool :=
  (y % 4 == 0 && y % 100 != 0) || (y % 400 == 0)

/-- Days in a month of the proleptic Gregorian calendar. -/
def daysInMonth (y m : Nat) : Nat :=
  if m = 2 then (if isLeap y then 29 else 28)
  else if m = 4 ∨ m = 6 ∨ m = 9 ∨ m = 11 then 30
  else 31

/-- Days in the months strictly before month `m` of year `y`. -/
def daysBeforeMonth (y m : Nat) : Nat :=
  ((List.range (m - 1)).map (fun i => daysInMonth y (i + 1))).sum

/-- Proleptic-Gregorian ordinal of a date (0001-01-01 is day 1), as CPython's
`date.toordinal` computes it; `toOrdinal 1970 1 1 = 719163`. -/
def toOrdinal (y m d : Nat) : Nat :=
  365 * (y - 1) + (y - 1) / 4 - (y - 1) / 100 + (y - 1) / 400 + daysBeforeMonth y m + d

/-- Value of an ASCII digit, `none` for any other character. -/
def digitVal (c : Char) : Option Nat :=
  if '0' ≤ c ∧ c ≤ '9' then some (c.toNat - 48) else none

/-- Read exactly two digits. -/
def read2 : List Char → Option (Nat × List Char)
  | c1 :: c2 :: rest =>
    match digitVal c1, digitVal c2 with
    | some a, some b => some (10 * a + b, rest)
    | _, _ => none
  | _ => none

/-- Read exactly four digits. -/
def read4 : List Char → Option (Nat × List Char)
  | c1 :: c2 :: c3 :: c4 :: rest =>
    match digitVal c1, digitVal c2, digitVal c3, digitVal c4 with
    | some a, some b, some c, some d => some (1000 * a + 100 * b + 10 * c + d, rest)
    | _, _, _, _ => none
  | _ => none

/-- Consume one expected character. -/
def expectChar (c : Char) : List Char → Option (List Char)
  | c' :: rest => if c' = c then some rest else none
  | [] => none

/-- Consume a maximal run of digits. -/
def takeDigits : List Char → List Nat × List Char
  | [] => ([], [])
  | c :: rest =>
    match digitVal c with
    | some d =>
      let p := takeDigits rest
      (d :: p.1, p.2)
    | none => ([], c :: rest)

/-- Microseconds denoted by a fractional-second digit run (digits beyond six
are truncated, as in CPython). -/
def microsOfDigits (ds : List Nat) : Nat :=
  ((ds.take 6).foldl (fun acc d => 10 * acc + d) 0) * 10 ^ (6 - min 6 ds.length)

/-- Parse the time-of-day part `HH[:MM[:SS[.f+]]]`, returning hour, minute,
second, microsecond and the unread rest. -/
def parseHMS (cs : List Char) : Option (Nat × Nat × Nat × Nat × List Char) :=
  match read2 cs with
  | none => none
  | some (hh, rest) =>
    match rest with
    | ':' :: rest2 =>
      match read2 rest2 with
      | none => none
      | some (mm, rest3) =>
        match rest3 with
        | ':' :: rest4 =>
          match read2 rest4 with
          | none => none
          | some (ss, rest5) =>
            match rest5 with
            | '.' :: rest6 =>
              match takeDigits rest6 with
              | ([], _) => none
              | (ds, rest7) => some (hh, mm, ss, microsOfDigits ds, rest7)
            | _ => some (hh, mm, ss, 0, rest5)
        | _ => some (hh, mm, 0, 0, rest3)
    | _ => some (hh, 0, 0, 0, rest)

/-- Parse the magnitude of a UTC offset, `HH:MM[:SS]`, in seconds.  CPython
rejects offsets of a day or more and out-of-range minutes/seconds. -/
def parseOffsetAmount (cs : List Char) : Option (Int × List Char) :=
  match read2 cs with
  | none => none
  | some (hh, rest) =>
    match rest with
    | ':' :: rest2 =>
      match read2 rest2 with
      | none => none
      | some (mm, rest3) =>
        match rest3 with
        | ':' :: rest4 =>
          match read2 rest4 with
          | none => none
          | some (ss, rest5) =>
            if hh ≤ 23 ∧ mm ≤ 59 ∧ ss ≤ 59 then
              some ((hh * 3600 + mm * 60 + ss : Nat), rest5)
            else none
        | _ => if hh ≤ 23 ∧ mm ≤ 59 then some ((hh * 3600 + mm * 60 : Nat), rest3) else none
    | _ => none

/-- Parse what follows the time of day: nothing (an offset-naive datetime) or
a signed UTC offset ending the string. -/
def parseTzSuffix : List Char → Option (Option Int)
  | [] => some none
  | '+' :: rest =>
    match parseOffsetAmount rest with
    | some (s, []) => some (some s)
    | _ => none
  | '-' :: rest =>
    match parseOffsetAmount rest with
    | some (s, []) => some (some (-s))
    | _ => none
  | _ => none

/-- Are the parsed calendar fields a real date and time?  CPython's
constructors raise `ValueError` outside these ranges (`MINYEAR` is 1; a year
has at most four digits here, so the upper bound is implicit). -/
def fieldsValid (y mo d hh mm ss : Nat) : Prop :=
  1 ≤ y ∧ 1 ≤ mo ∧ mo ≤ 12 ∧ 1 ≤ d ∧ d ≤ daysInMonth y mo ∧ hh ≤ 23 ∧ mm ≤ 59 ∧ ss ≤ 59

instance (y mo d hh mm ss : Nat) : Decidable (fieldsValid y mo d hh mm ss) := by
  unfold fieldsValid
  infer_instance

/-- CPython `datetime.fromisoformat` on the formats the engine can meet:
`YYYY-MM-DD`, optionally followed by one separator character, a time of day
`HH[:MM[:SS[.f+]]]` and an optional `+HH:MM[:SS]`/`-HH:MM[:SS]` offset.
Failure (`ValueError`) is `none`. -/
def fromisoformat (s : String) : Option PyDateTime :=
  match read4 s.data with
  | none => none
  | some (y, r1) =>
    match expectChar '-' r1 with
    | none => none
    | some r2 =>
      match read2 r2 with
      | none => none
      | some (mo, r3) =>
        match expectChar '-' r3 with
        | none => none
        | some r4 =>
          match read2 r4 with
          | none => none
          | some (d, r5) =>
            match r5 with
            | [] =>
              if fieldsValid y mo d 0 0 0 then
                some ⟨y, mo, d, 0, 0, 0, 0, none⟩
              else none
            | _sep :: r6 =>
              match parseHMS r6 with
              | none => none
              | some (hh, mm, ss, us, r7) =>
                match parseTzSuffix r7 with
                | none => none
                | some off =>
                  if fieldsValid y mo d hh mm ss then
                    some ⟨y, mo, d, hh, mm, ss, us, off⟩
                  else none

/-- Python `str.replace('Z', '+00:00')` (line 27 of the source): every `Z`
becomes `+00:00`. -/
def replaceZ (s : String) : String :=
  String.mk (s.data.foldr
    (fun c acc => if c = 'Z' then '+' :: '0' :: '0' :: ':' :: '0' :: '0' :: acc else c :: acc) [])

/-- `_parse_timestamp` (source lines 22-29): reject an absent or empty
timestamp, replace `Z` by `+00:00`, and parse; every raise becomes `none`
(the caller catches and skips). -/
def _parse_timestamp (ts : Option String) : Option PyDateTime :=
  match ts with
  | none => none
  | some s => if s = "" then none else fromisoformat (replaceZ s)

/-- A record that survived validation (the "Validated Event" of §3). -/
structure LogEvent where
  ts : PyDateTime
  endpoint : String
  method : String
  rt : ℚ
  status : ℤ
  user : String
deriving DecidableEq

/-- Python `entry.get(k) or dfl`: an absent or empty (falsy) string field
falls back to the default. -/
def orDefault (v : Option String) (dfl : String) : String :=
  match v with
  | some s => if s = "" then dfl else s
  | none => dfl

/-- Numeric check of the source (line 75): the value must be an `int` or a
`float` (Python `isinstance(rt, (int, float))`). -/
def numericValue : PyVal → Option ℚ
  | PyVal.int z => some (z : ℚ)
  | PyVal.float q => some q
  | _ => none

/-- Validation of one raw entry, source lines 62-82: parseable timestamp,
present numeric non-negative `response_time_ms`, present integer
`status_code`; defaults for the string fields.  A rejected record yields
`none` (the source `continue`s). -/
def validate (entry : RawRecord) : Option LogEvent :=
  match _parse_timestamp entry.timestamp with
  | none => none
  | some ts =>
    match numericValue entry.response_time_ms with
    | none => none
    | some rt =>
      if rt < 0 then none
      else
        match entry.status_code with
        | PyVal.int status =>
          some { ts, endpoint := orDefault entry.endpoint "/",
                 method := orDefault entry.method "GET", rt, status,
                 user := orDefault entry.user_id "anonymous" }
        | _ => none

/-- Seconds denoted by the wall-clock fields since 0001-01-01 00:00:00. -/
def wallSecs (t : PyDateTime) : Int :=
  (toOrdinal t.year t.month t.day : Int) * 86400 + t.hour * 3600 + t.minute * 60 + t.second

/-- Microseconds on the axis CPython compares datetimes along: the wall clock
shifted by the UTC offset when one is present. -/
def instantMicros (t : PyDateTime) : Int :=
  (wallSecs t - t.utcoffset.getD 0) * 1000000 + t.microsecond

/-- Python `a < b` on datetimes: aware values compare as instants, naive
values compare by wall clock, and mixing the two raises `TypeError` — the one
uncaught exception of the accumulation loop (source lines 85-88). -/
def dtLt (a b : PyDateTime) : Except String Bool :=
  if a.utcoffset.isSome = b.utcoffset.isSome then
    Except.ok (decide (instantMicros a < instantMicros b))
  else Except.error "cannot compare offset-naive and offset-aware datetimes"

/-- `int(t.timestamp())`, whole seconds since the Unix epoch (the fractional
part is truncated; a pre-epoch sub-second instant would truncate toward zero
in CPython, floored here).  CPython interprets a naive datetime in the
platform-local timezone; this embedding reads it as UTC. -/
def epochSeconds (t : PyDateTime) : Int :=
  wallSecs t - t.utcoffset.getD 0 - 719163 * 86400

/-- Two-digit zero-padded decimal. -/
def pad2 (n : Nat) : String := if n < 10 then "0" ++ toString n else toString n

/-- Four-digit zero-padded decimal. -/
def pad4 (n : Nat) : String :=
  if n < 10 then "000" ++ toString n
  else if n < 100 then "00" ++ toString n
  else if n < 1000 then "0" ++ toString n
  else toString n

/-- Source line 89, `ts.strftime("%Y-%m-%dT%H:00:00Z")`: `strftime` formats
the WALL-CLOCK fields of the datetime — the stored offset is ignored (no
conversion to UTC happens), yet the key carries a literal `Z`. -/
def strftimeHourKey (t : PyDateTime) : String :=
  pad4 t.year ++ "-" ++ pad2 t.month ++ "-" ++ pad2 t.day ++ "T" ++ pad2 t.hour ++ ":00:00Z"

/-- Hour of the instant in UTC (what §3 of the spec calls the UTC hour
truncation of the event's timestamp). -/
def utcHour (t : PyDateTime) : Int :=
  ((wallSecs t - t.utcoffset.getD 0).emod 86400) / 3600

/-- First value bound to `key`, or `dfl` (Python `dict.get(key, dfl)`). -/
def dictGetD {α β : Type} [DecidableEq α] (l : List (α × β)) (key : α) (dfl : β) : β :=
  match l.find? (fun p => p.1 = key) with
  | some p => p.2
  | none => dfl

/-- Python dict/defaultdict update `l[key] = f (l.get(key, dfl))`: an existing
binding is rewritten in place (insertion order kept), a new key is appended. -/
def dictSet {α β : Type} [DecidableEq α] (l : List (α × β)) (key : α) (dfl : β) (f : β → β) :
    List (α × β) :=
  match l with
  | [] => [(key, f dfl)]
  | p :: rest =>
    if p.1 = key then (p.1, f p.2) :: rest
    else p :: dictSet rest key dfl f

/-- `Counter`-style increment: `l[key] += n` with a zero default. -/
def dictBump {α : Type} [DecidableEq α] (l : List (α × Nat)) (key : α) (n : Nat) :
    List (α × Nat) :=
  dictSet l key 0 (· + n)

/-- Per-endpoint accumulator of the source (lines 44-52): one value of the
`endpoint_info` defaultdict.  `min_response`/`max_response` start at
`math.inf`/`-math.inf`; `none` plays the role of the untouched infinity. -/
structure EpInfo where
  count : Nat
  sum_response : ℚ
  min_response : Option ℚ
  max_response : Option ℚ
  errors : Nat
  status_counter : List (ℤ × Nat)
  methods : List (String × Nat)
deriving DecidableEq

/-- The fresh accumulator the `endpoint_info` defaultdict constructs. -/
def EpInfo.init : EpInfo :=
  { count := 0, sum_response := 0, min_response := none, max_response := none,
    errors := 0, status_counter := [], methods := [] }

/-- All running state of the validation-and-accumulation loop (source lines
39-59).  The source also keeps a `total` counter of all entries, valid or
not; it is never read afterwards and is not tracked here. -/
structure AccState where
  sum_response : ℚ
  earliest : Option PyDateTime
  latest : Option PyDateTime
  hourly : List (String × Nat)
  endpoint_info : List (String × EpInfo)
  user_counts : List (String × Nat)
  per_endpoint_timestamps : List (String × List PyDateTime)
  per_endpoint_errors : List (String × List PyDateTime)
deriving DecidableEq

/-- State before the first record. -/
def AccState.init : AccState :=
  { sum_response := 0, earliest := none, latest := none, hourly := [],
    endpoint_info := [], user_counts := [], per_endpoint_timestamps := [],
    per_endpoint_errors := [] }

/-- `avg_rt` of one endpoint aggregate, `sum_response / count` (source lines
142 and 150). -/
def epAvg (d : EpInfo) : ℚ := d.sum_response / (d.count : ℚ)

/-- `err_rate` of one endpoint aggregate, `errors / count * 100` (source
lines 169 and 276). -/
def epErrRate (d : EpInfo) : ℚ := (d.errors : ℚ) / (d.count : ℚ) * 100

/-- `get_ratio` of one endpoint aggregate, `methods.get("GET", 0) / count`
(source line 275). -/
def getRatio (d : EpInfo) : ℚ := ((dictGetD d.methods "GET" 0 : Nat) : ℚ) / (d.count : ℚ)

/-- `if earliest is None or ts < earliest` (source line 85); the comparison of
a naive and an aware datetime raises. -/
def updEarliest (cur : Option PyDateTime) (ts : PyDateTime) : Except String PyDateTime :=
  match cur with
  | none => Except.ok ts
  | some e =>
    match dtLt ts e with
    | Except.ok b => Except.ok (if b then ts else e)
    | Except.error msg => Except.error msg

/-- `if latest is None or ts > latest` (source line 87); `a > b` is `b < a`. -/
def updLatest (cur : Option PyDateTime) (ts : PyDateTime) : Except String PyDateTime :=
  match cur with
  | none => Except.ok ts
  | some l =>
    match dtLt l ts with
    | Except.ok b => Except.ok (if b then ts else l)
    | Except.error msg => Except.error msg

/-- The endpoint-accumulator update of source lines 94-102 for one event. -/
def updEpInfo (rt : ℚ) (status : ℤ) (method : String) (d : EpInfo) : EpInfo :=
  { count := d.count + 1,
    sum_response := d.sum_response + rt,
    min_response := some (match d.min_response with
      | some m => min m rt
      | none => rt),
    max_response := some (match d.max_response with
      | some m => max m rt
      | none => rt),
    errors := d.errors + (if 400 ≤ status then 1 else 0),
    status_counter := dictBump d.status_counter status 1,
    methods := dictBump d.methods method 1 }

/-- Fold one validated event into the state (source lines 84-107, the part of
the loop body after validation). -/
def accumulate (s : AccState) (e : LogEvent) : Except String AccState :=
  match updEarliest s.earliest e.ts with
  | Except.error msg => Except.error msg
  | Except.ok earliest =>
    match updLatest s.latest e.ts with
    | Except.error msg => Except.error msg
    | Except.ok latest =>
      Except.ok
        { sum_response := s.sum_response + e.rt,
          earliest := some earliest,
          latest := some latest,
          hourly := dictBump s.hourly (strftimeHourKey e.ts) 1,
          endpoint_info := dictSet s.endpoint_info e.endpoint EpInfo.init
            (updEpInfo e.rt e.status e.method),
          user_counts := dictBump s.user_counts e.user 1,
          per_endpoint_timestamps := dictSet s.per_endpoint_timestamps e.endpoint []
            (· ++ [e.ts]),
          per_endpoint_errors :=
            if 400 ≤ e.status then
              dictSet s.per_endpoint_errors e.endpoint [] (· ++ [e.ts])
            else s.per_endpoint_errors }

/-- One iteration of the loop at source line 62: a record that fails
validation contributes nothing. -/
def step (s : AccState) (entry : RawRecord) : Except String AccState :=
  match validate entry with
  | none => Except.ok s
  | some e => accumulate s e

/-- The whole validation-and-accumulation loop. -/
def processLogs (logs : List RawRecord) : Except String AccState :=
  logs.foldlM step AccState.init

/-- Python `sorted` on integers (the source sorts the datetimes first and then
maps them to epoch seconds, lines 201-203 — for integer seconds the two
orders of operations give the same list).  `insertionSort` is a stable sort,
like CPython's. -/
def sortInts (l : List Int) : List Int :=
  List.insertionSort (· ≤ ·) l

/-- The sorted whole-second timestamps a window scan works on. -/
def sortedSecs (times : List PyDateTime) : List Int :=
  sortInts (times.map epochSeconds)

/-- The `while secs[right] - secs[left] > 300: left += 1` loop of the source
(lines 208-209 and 246-247).  `fuel` bounds the pointer's travel; every call
passes `right - left`, which is exact for the sorted lists the source builds
(the loop condition is false at `left = right`). -/
def advanceLeft (secs : List Int) (sr : Int) (left : Nat) : Nat → Nat
  | 0 => left
  | fuel + 1 =>
    if 300 < sr - secs.getD left 0 then advanceLeft secs sr (left + 1) fuel else left

/-- The spike-detection sliding window (source lines 205-211): for each right
index the count `right - left + 1` of events in the trailing 300 seconds.
`rem` is the part of `secs` from `right` on, so the recursion is structural;
`sr` stands for `secs[right]`. -/
def windowLoop (secs : List Int) : Nat → Nat → List Int → List Nat
  | _, _, [] => []
  | left, right, sr :: rem =>
    let l := advanceLeft secs sr left (right - left)
    (right - l + 1) :: windowLoop secs l (right + 1) rem

/-- All per-position window counts of a timestamp list. -/
def windowCounts (secs : List Int) : List Nat :=
  windowLoop secs 0 0 secs

/-- The error-cluster scan (source lines 245-256): the same sliding window,
stopped at the first right index whose window holds at least 10 errors;
returns that window's `(left, right)`. -/
def clusterLoop (secs : List Int) : Nat → Nat → List Int → Option (Nat × Nat)
  | _, _, [] => none
  | left, right, sr :: rem =>
    let l := advanceLeft secs sr left (right - left)
    if 10 ≤ right - l + 1 then some (l, right)
    else clusterLoop secs l (right + 1) rem

/-- Severity-threshold table (source lines 11-20; injected configuration in
the spec's terms). -/
structure Thresholds where
  medium : ℚ
  high : ℚ
  critical : ℚ

/-- `RESPONSE_THRESHOLDS` of the source. -/
def RESPONSE_THRESHOLDS : Thresholds := { medium := 500, high := 1000, critical := 2000 }

/-- `ERROR_RATE_THRESHOLDS` of the source. -/
def ERROR_RATE_THRESHOLDS : Thresholds := { medium := 5, high := 10, critical := 15 }

/-- One entry of `performance_issues` (source lines 160-166 and 179-184). -/
inductive Issue where
  | slow_endpoint (endpoint : String) (avg_response_time_ms : ℚ) (threshold_ms : ℚ)
      (severity : String)
  | high_error_rate (endpoint : String) (error_rate_percentage : ℚ) (severity : String)
deriving DecidableEq

/-- One entry of `anomalies`.  Timestamps are carried as whole epoch seconds
(the source formats them through `isoformat`). -/
inductive Anomaly where
  | request_spike (endpoint : String) (timestamp : Int) (normal_rate : ℚ)
      (actual_rate : Nat) (severity : String)
  | response_degradation (endpoint : String) (avg_response_time_ms : ℚ)
      (peak_response_time_ms : ℚ) (severity : String)
  | error_cluster (endpoint : String) (window_start : Int) (window_end : Int)
      (error_count : Nat) (severity : String)
  | unusual_user_behavior (user_id : String) (request_count : Nat) (severity : String)
deriving DecidableEq

/-- One entry of `caching_opportunities` (source lines 281-289). -/
structure CachingOpportunity where
  endpoint : String
  potential_cache_hit_rate : ℤ
  current_requests : Nat
  potential_requests_saved : ℤ
  estimated_cost_savings_usd : ℚ
  recommended_ttl_minutes : Nat
  recommendation_confidence : String
deriving DecidableEq

/-- One entry of `endpoint_stats` (source lines 139-147). -/
structure EndpointStat where
  endpoint : String
  request_count : Nat
  avg_response_time_ms : ℚ
  slowest_request_ms : Option ℚ
  fastest_request_ms : Option ℚ
  error_count : Nat
  most_common_status : Option ℤ
deriving DecidableEq

/-- The returned report (source lines 294-322); the `summary` sub-dict is
flattened into the first four fields, and the `time_range` instants are kept
as datetimes (the source renders them with `isoformat`). -/
structure Report where
  total_requests : Nat
  time_range_start : Option PyDateTime
  time_range_end : Option PyDateTime
  avg_response_time_ms : Option ℚ
  error_rate_percentage : Option ℚ
  endpoint_stats : List EndpointStat
  performance_issues : List Issue
  recommendations : List String
  hourly_distribution : List (String × Nat)
  top_users_by_requests : List (String × Nat)
  anomalies : List Anomaly
  caching_opportunities : List CachingOpportunity
deriving DecidableEq

/-- The canonical empty report (source lines 112-126). -/
def emptyReport : Report :=
  { total_requests := 0, time_range_start := none, time_range_end := none,
    avg_response_time_ms := none, error_rate_percentage := none,
    endpoint_stats := [], performance_issues := [], recommendations := [],
    hourly_distribution := [], top_users_by_requests := [], anomalies := [],
    caching_opportunities := [] }

/-- Descending-by-count order used by `Counter.most_common` and by the
endpoint-stat sort. -/
def byCountDesc {α : Type} (a b : α × Nat) : Prop := b.2 ≤ a.2

instance {α : Type} : DecidableRel (@byCountDesc α) := fun a b => Nat.decLe b.2 a.2

instance {α : Type} : IsTotal (α × Nat) byCountDesc :=
  ⟨fun a b => (Nat.le_total b.2 a.2).elim Or.inl Or.inr⟩

instance {α : Type} : IsTrans (α × Nat) byCountDesc :=
  ⟨fun _ _ _ hab hbc => Nat.le_trans hbc hab⟩

/-- `Counter.most_common()`: bindings sorted by count descending, ties kept
in insertion order (both CPython's sort and `insertionSort` are stable). -/
def most_common {α : Type} (l : List (α × Nat)) : List (α × Nat) :=
  List.insertionSort byCountDesc l

/-- Sum of all counter values, `sum(counter.values())`. -/
def counterTotal {α : Type} (l : List (α × Nat)) : Nat :=
  (l.map (fun p => p.2)).sum

/-- `avg_rate` of the spike scan (source line 212): the mean of all
per-position window counts. -/
def spikeAvgRate (times : List PyDateTime) : ℚ :=
  ((windowCounts (sortedSecs times)).sum : ℚ) /
    ((max 1 (windowCounts (sortedSecs times)).length : Nat) : ℚ)

/-- `peak` of the spike scan (source line 213): the largest window count. -/
def spikePeak (times : List PyDateTime) : Nat :=
  (windowCounts (sortedSecs times)).foldl max 0

/-- `request_spike` detection for one endpoint (source lines 198-222).  The
reported timestamp re-indexes `secs` through `secs.index(...)`; timestamps
are carried at whole-second resolution here, so `times_sorted[i]` is
represented by `secs[i]`. -/
def spikeAnomalyFor (endpoint : String) (times : List PyDateTime) : Option Anomaly :=
  if times = [] then none
  else
    let secs := sortedSecs times
    let window_counts := windowCounts secs
    let avg_rate : ℚ := spikeAvgRate times
    let peak := spikePeak times
    if 0 < avg_rate ∧ 3 * avg_rate < (peak : ℚ) ∧ 10 ≤ peak then
      some (Anomaly.request_spike endpoint
        (secs.getD (secs.indexOf (secs.getD (window_counts.indexOf peak) 0)) 0)
        avg_rate peak (if 50 < peak then "high" else "medium"))
    else none

/-- `response_degradation` detection for one endpoint (source lines 225-237):
the aggregate max against twice the aggregate average. -/
def degradationFor (endpoint : String) (d : EpInfo) : Option Anomaly :=
  let avg_rt := epAvg d
  if 2 * avg_rt < d.max_response.getD 0 ∧ RESPONSE_THRESHOLDS.medium < d.max_response.getD 0 then
    some (Anomaly.response_degradation endpoint avg_rt (d.max_response.getD 0) "high")
  else none

/-- `error_cluster` detection for one endpoint (source lines 240-256): the
first 300-second window holding at least 10 errors, if any. -/
def clusterAnomalyFor (endpoint : String) (err_times : List PyDateTime) : Option Anomaly :=
  if err_times = [] then none
  else
    let secs := sortedSecs err_times
    match clusterLoop secs 0 0 secs with
    | some (l, r) =>
      some (Anomaly.error_cluster endpoint (secs.getD l 0) (secs.getD r 0) (r - l + 1)
        (if 50 < r - l + 1 then "critical" else "high"))
    | none => none

/-- `unusual_user_behavior` detection (source lines 258-266): the top user by
request count, flagged when holding more than half of all valid requests.
The source indexes `most_common(1)[0]` unguarded; on an empty counter that
would raise, which the early empty-report return makes unreachable. -/
def userAnomaly (user_counts : List (String × Nat)) : Option Anomaly :=
  match (most_common user_counts).head? with
  | none => none
  | some (top_user, top_count) =>
    if (1 : ℚ) / 2 < (top_count : ℚ) / (counterTotal user_counts : ℚ) then
      some (Anomaly.unusual_user_behavior top_user top_count "high")
    else none

/-- Severity of a slow endpoint (source lines 151-158): highest band whose
strictly-greater-than cutoff the average exceeds. -/
def slowSeverity (avg_rt : ℚ) : Option String :=
  if RESPONSE_THRESHOLDS.critical < avg_rt then some "critical"
  else if RESPONSE_THRESHOLDS.high < avg_rt then some "high"
  else if RESPONSE_THRESHOLDS.medium < avg_rt then some "medium"
  else none

/-- Severity of a high error rate (source lines 170-177). -/
def errSeverity (err_rate : ℚ) : Option String :=
  if ERROR_RATE_THRESHOLDS.critical < err_rate then some "critical"
  else if ERROR_RATE_THRESHOLDS.high < err_rate then some "high"
  else if ERROR_RATE_THRESHOLDS.medium < err_rate then some "medium"
  else none

/-- Performance issues one endpoint emits (source lines 149-184): the
slow-endpoint check, then the error-rate check, independently. -/
def issuesFor (endpoint : String) (d : EpInfo) : List Issue :=
  let avg_rt := epAvg d
  let err_rate := epErrRate d
  (match slowSeverity avg_rt with
   | some severity =>
     [Issue.slow_endpoint endpoint avg_rt RESPONSE_THRESHOLDS.medium severity]
   | none => []) ++
  (match errSeverity err_rate with
   | some severity => [Issue.high_error_rate endpoint err_rate severity]
   | none => [])

/-- One `endpoint_stats` entry (source lines 139-147). -/
def mkStat (endpoint : String) (d : EpInfo) : EndpointStat :=
  { endpoint := endpoint,
    request_count := d.count,
    avg_response_time_ms := epAvg d,
    slowest_request_ms := d.max_response,
    fastest_request_ms := d.min_response,
    error_count := d.errors,
    most_common_status := ((most_common d.status_counter).head?).map (fun p => p.1) }

/-- The plain-text recommendation rule (source lines 189-193). -/
def recommendationFor (s : EndpointStat) : Option String :=
  if 100 < s.request_count ∧ s.avg_response_time_ms < 500 then
    some ("Consider caching for " ++ s.endpoint ++ " (" ++ toString s.request_count
      ++ " requests)")
  else none

/-- Python `round` to four decimals.  CPython rounds half to even; the values
this engine passes in are exact multiples of 1/10000, on which every tie rule
agrees. -/
def round4 (x : ℚ) : ℚ := (round (x * 10000) : ℚ) / 10000

/-- The caching-opportunity rule for one endpoint (source lines 272-291).
`int(x)` on a non-negative float is the floor. -/
def cachingFor (endpoint : String) (d : EpInfo) : Option CachingOpportunity :=
  if d.count < 1 then none
  else
    let get_ratio : ℚ := getRatio d
    let err_rate : ℚ := epErrRate d
    let consistent := d.max_response.getD 0 - d.min_response.getD 0 < 500
    if 100 < d.count ∧ (0.8 : ℚ) < get_ratio ∧ err_rate < 2 ∧ consistent then
      let potential_hit : ℤ := ⌊(d.count : ℚ) * 0.8⌋
      let est_savings : ℚ := (potential_hit : ℚ) * 0.0001
      some { endpoint := endpoint,
             potential_cache_hit_rate := ⌊get_ratio * 100⌋,
             current_requests := d.count,
             potential_requests_saved := potential_hit,
             estimated_cost_savings_usd := round4 est_savings,
             recommended_ttl_minutes := 15,
             recommendation_confidence := "high" }
    else none

/-- Ascending lexicographic key order for `sorted(hourly.items())`; the keys
are distinct, so comparing the key alone matches CPython's pair order. -/
def byKeyAsc (a b : String × Nat) : Prop := a.1 ≤ b.1

instance : DecidableRel byKeyAsc := fun a b => (inferInstance : Decidable (a.1 ≤ b.1))

instance : IsTotal (String × Nat) byKeyAsc :=
  ⟨fun a b => (le_total a.1 b.1).elim Or.inl Or.inr⟩

instance : IsTrans (String × Nat) byKeyAsc := ⟨fun _ _ _ hab hbc => le_trans hab hbc⟩

/-- Python slice `s[a:b]`. -/
def strSlice (s : String) (a b : Nat) : String :=
  String.mk ((s.data.drop a).take (b - a))

/-- Hourly-distribution re-keying (source lines 307-311): sort the buckets by
key, slice `"HH:MM"` out of each, and merge equal labels by summing. -/
def formatHourly (hourly : List (String × Nat)) : List (String × Nat) :=
  (List.insertionSort byKeyAsc hourly).foldl
    (fun acc kv => dictBump acc (strSlice kv.1 11 16) kv.2) []

/-- Descending request-count order of `endpoint_stats` (source line 315). -/
def byRequestCountDesc (a b : EndpointStat) : Prop := b.request_count ≤ a.request_count

instance : DecidableRel byRequestCountDesc := fun a b => Nat.decLe b.request_count a.request_count

instance : IsTotal EndpointStat byRequestCountDesc :=
  ⟨fun a b => (Nat.le_total b.request_count a.request_count).elim Or.inl Or.inr⟩

instance : IsTrans EndpointStat byRequestCountDesc :=
  ⟨fun _ _ _ hab hbc => Nat.le_trans hbc hab⟩

/-- Everything after the accumulation loop (source lines 109-323): the early
empty report, then the derived statistics, issue classification, anomaly
scans, recommendations and formatting. -/
def assembleReport (st : AccState) : Report :=
  let valid_requests : Nat := (st.endpoint_info.map (fun p => p.2.count)).sum
  if valid_requests = 0 then emptyReport
  else
    let avg_response := st.sum_response / (valid_requests : ℚ)
    let total_errors := (st.endpoint_info.map (fun p => p.2.errors)).sum
    let error_rate_pct := (total_errors : ℚ) / (valid_requests : ℚ) * 100
    let endpoint_stats := st.endpoint_info.map (fun p => mkStat p.1 p.2)
    let performance_issues := st.endpoint_info.flatMap (fun p => issuesFor p.1 p.2)
    let recommendations := endpoint_stats.filterMap recommendationFor
    let anomalies :=
      (st.per_endpoint_timestamps.filterMap (fun p => spikeAnomalyFor p.1 p.2)) ++
      (st.endpoint_info.filterMap (fun p => degradationFor p.1 p.2)) ++
      (st.per_endpoint_errors.filterMap (fun p => clusterAnomalyFor p.1 p.2)) ++
      (userAnomaly st.user_counts).toList
    let caching_opportunities := st.endpoint_info.filterMap (fun p => cachingFor p.1 p.2)
    { total_requests := valid_requests,
      time_range_start := st.earliest,
      time_range_end := st.latest,
      avg_response_time_ms := some avg_response,
      error_rate_percentage := some error_rate_pct,
      endpoint_stats := List.insertionSort byRequestCountDesc endpoint_stats,
      performance_issues := performance_issues,
      recommendations := recommendations,
      hourly_distribution := formatHourly st.hourly,
      top_users_by_requests := (most_common st.user_counts).take 5,
      anomalies := anomalies,
      caching_opportunities := caching_opportunities }

/-- `analyze_api_logs` (source lines 31-323).  The argument is `none` when
the caller passes `None`; the raise at line 38 and the datetime-comparison
`TypeError` are the `Except.error` outcomes. -/
def analyze_api_logs (logs : Option (List RawRecord)) : Except String Report :=
  match logs with
  | none => Except.error "logs must be an array (got None)"
  | some logs =>
    match processLogs logs with
    | Except.error msg => Except.error msg
    | Except.ok st => Except.ok (assembleReport st)

/-- Total of the report an analysis returned, 0 for an aborted run. -/
def reportTotal (x : Except String Report) : Nat :=
  match x with
  | Except.ok rep => rep.total_requests
  | Except.error _ => 0

/-- Request count the returned report shows for one endpoint (0 when the
endpoint has no entry or the run aborted). -/
def reportEpCount (x : Except String Report) (endpoint : String) : Nat :=
  match x with
  | Except.ok rep =>
    match rep.endpoint_stats.find? (fun s => s.endpoint = endpoint) with
    | some s => s.request_count
    | none => 0
  | Except.error _ => 0

/-- Does a raw record pass validation? -/
def validRecord (entry : RawRecord) : Bool :=
  (validate entry).isSome

/-- Specification count for a window position: how many indices `i ≤ r` lie
in the trailing 300-second window of position `r` (an element exactly 300
seconds older is still inside). -/
def winSpec (secs : List Int) (r : Nat) : Nat :=
  ((List.range (r + 1)).filter (fun i => decide (secs.getD r 0 - secs.getD i 0 ≤ 300))).length

/-- `valid_requests` as the source computes it (line 110): the sum of all
per-endpoint counts. -/
def sumCounts (l : List (String × EpInfo)) : Nat :=
  (l.map (fun p => p.2.count)).sum

/-- Request count the accumulated state holds for one endpoint. -/
def stateEpCount (st : AccState) (endpoint : String) : Nat :=
  (dictGetD st.endpoint_info endpoint EpInfo.init).count

/-- Invariant of the accumulated state: endpoint keys are distinct and every
tracked endpoint has seen at least one request. -/
def epInvariant (st : AccState) : Prop :=
  (st.endpoint_info.map (fun p => p.1)).Nodup ∧ ∀ p ∈ st.endpoint_info, 1 ≤ p.2.count

/-- Test fixture: the aggregate of the spec's caching example — 150 requests,
143 of them GET (95.3 percent), no errors, response times between 100 and
200 ms. -/
def epInfo150 : EpInfo :=
  { count := 150, sum_response := 15000, min_response := some 100,
    max_response := some 200, errors := 0, status_counter := [(200, 150)],
    methods := [("GET", 143), ("POST", 7)] }

/-- Test fixture: an aggregate that is both slow (average 2500 ms) and
error-ridden (100 percent errors). -/
def slowAndErrorEpInfo : EpInfo :=
  { count := 1, sum_response := 2500, min_response := some 2500,
    max_response := some 2500, errors := 1, status_counter := [(500, 1)],
    methods := [("GET", 1)] }

/-- Test fixture: ten error timestamps in the same second. -/
def tenErrorTimes : List PyDateTime :=
  List.replicate 10 ⟨2025, 1, 15, 10, 0, 0, 0, some 0⟩

/-- Test fixture: a valid record with a `Z`-suffixed (offset-aware) timestamp. -/
def awareRecord : RawRecord :=
  { timestamp := some "2025-01-15T10:00:00Z", endpoint := some "/api/users",
    method := some "GET", response_time_ms := PyVal.int 120,
    status_code := PyVal.int 200, user_id := some "user_001" }

/-- Test fixture: a record whose timestamp parses but carries no offset (an
offset-naive datetime, which validation does not reject). -/
def naiveRecord : RawRecord :=
  { timestamp := some "2025-01-15T11:00:00", endpoint := some "/api/users",
    method := some "GET", response_time_ms := PyVal.int 120,
    status_code := PyVal.int 200, user_id := some "user_001" }

/-- Test fixture: a valid record whose timestamp carries a `+05:00` offset
(wall clock 10:30, instant 05:30 UTC). -/
def offsetRecord : RawRecord :=
  { timestamp := some "2025-01-15T10:30:00+05:00", endpoint := some "/api/x",
    method := none, response_time_ms := PyVal.int 100,
    status_code := PyVal.int 200, user_id := none }

/-- Test fixture: a record that fails validation (unparseable timestamp). -/
def invalidRecord : RawRecord :=
  { timestamp := some "invalid", endpoint := some "/api/x", method := none,
    response_time_ms := PyVal.int 100, status_code := PyVal.int 200, user_id := none }

/-- Claim C2: `analyze_api_logs` fails on a `None` collection and returns the
canonical empty report for an empty sequence — but the claim's "no per-record
problem ever propagates as an exception" part FAILS on the code: a sequence
holding one offset-aware and one offset-naive valid record makes the
unguarded `ts < earliest` comparison (source line 85) raise `TypeError`,
which aborts the whole call.  This theorem evaluates the code at that failing
input. -/
theorem c2_error_handling_mixed_awareness_raises :
    analyze_api_logs none = Except.error "logs must be an array (got None)" ∧
    analyze_api_logs (some []) = Except.ok emptyReport ∧
    analyze_api_logs (some [invalidRecord]) = Except.ok emptyReport ∧
    analyze_api_logs (some [awareRecord, naiveRecord]) =
      Except.error "cannot compare offset-naive and offset-aware datetimes" ∧
    validate awareRecord ≠ none ∧ validate naiveRecord ≠ none :=
  ⟨rfl, rfl, rfl, rfl, fun h => Option.noConfusion h, fun h => Option.noConfusion h⟩

/-- Claim C5: the hour bucket is NOT the UTC hour truncation — `strftime`
formats the wall-clock fields of the parsed datetime, ignoring its UTC
offset (while still labelling the key with a literal `Z`).  A valid record
with timestamp `2025-01-15T10:30:00+05:00` (instant 05:30 UTC) lands in the
`"10:00"` bucket of `hourly_distribution`, not the `"05:00"` bucket the
claim requires. -/
theorem c5_hour_bucket_uses_wall_clock_not_utc :
    (analyze_api_logs (some [offsetRecord])).map Report.hourly_distribution =
      Except.ok [("10:00", 1)] ∧
    (_parse_timestamp (some "2025-01-15T10:30:00+05:00")).map utcHour = some 5 ∧
    (_parse_timestamp (some "2025-01-15T10:30:00+05:00")).map
      (fun t => strftimeHourKey t) = some "2025-01-15T10:00:00Z" :=
  ⟨rfl, rfl, rfl⟩

lemma advanceLeft_ge (secs : List Int) (sr : Int) (fuel : Nat) :
    ∀ left, left ≤ advanceLeft secs sr left fuel := by
  induction fuel with
  | zero => intro left; exact le_refl _
  | succ n ih =>
    intro left
    simp only [advanceLeft]
    split
    · exact le_trans (Nat.le_succ left) (ih (left + 1))
    · exact le_refl _

lemma advanceLeft_le (secs : List Int) (sr : Int) (fuel : Nat) :
    ∀ left, advanceLeft secs sr left fuel ≤ left + fuel := by
  induction fuel with
  | zero => intro left; simp [advanceLeft]
  | succ n ih =>
    intro left
    simp only [advanceLeft]
    split
    · exact le_trans (ih (left + 1)) (by omega)
    · omega

lemma advanceLeft_out (secs : List Int) (sr : Int) (fuel : Nat) :
    ∀ left i, left ≤ i → i < advanceLeft secs sr left fuel →
      300 < sr - secs.getD i 0 := by
  induction fuel with
  | zero =>
    intro left i h1 h2
    simp only [advanceLeft] at h2
    omega
  | succ n ih =>
    intro left i h1 h2
    simp only [advanceLeft] at h2
    by_cases hc : 300 < sr - secs.getD left 0
    · rw [if_pos hc] at h2
      rcases Nat.eq_or_lt_of_le h1 with rfl | hlt
      · exact hc
      · exact ih (left + 1) i hlt h2
    · rw [if_neg hc] at h2
      omega

lemma advanceLeft_stop (secs : List Int) (sr : Int) (fuel : Nat) :
    ∀ left, advanceLeft secs sr left fuel = left + fuel ∨
      sr - secs.getD (advanceLeft secs sr left fuel) 0 ≤ 300 := by
  induction fuel with
  | zero => intro left; left; simp [advanceLeft]
  | succ n ih =>
    intro left
    simp only [advanceLeft]
    by_cases hc : 300 < sr - secs.getD left 0
    · rw [if_pos hc]
      rcases ih (left + 1) with h | h
      · left; omega
      · right; exact h
    · rw [if_neg hc]
      right
      omega

lemma sorted_getD_mono {secs : List Int} (hs : List.Sorted (· ≤ ·) secs)
    {i j : Nat} (hij : i ≤ j) (hj : j < secs.length) :
    secs.getD i 0 ≤ secs.getD j 0 := by
  have hi : i < secs.length := lt_of_le_of_lt hij hj
  rw [List.getD_eq_getElem _ _ hi, List.getD_eq_getElem _ _ hj]
  rcases Nat.eq_or_lt_of_le hij with rfl | h
  · exact le_refl _
  · exact List.Sorted.rel_get_of_lt hs h

lemma countP_range_le (a : Nat) : ∀ n, (List.range n).countP (fun i => decide (a ≤ i)) = n - a := by
  intro n
  induction n with
  | zero => simp
  | succ m ih =>
    rw [List.range_succ, List.countP_append, ih]
    by_cases h : a ≤ m
    · have hone : (List.countP (fun i => decide (a ≤ i)) [m]) = 1 := by simp [h]
      omega
    · have hzero : (List.countP (fun i => decide (a ≤ i)) [m]) = 0 := by simp [h]
      omega

lemma winSpec_eq_count {secs : List Int} (hs : List.Sorted (· ≤ ·) secs)
    {l r : Nat} (_hlr : l ≤ r) (hr : r < secs.length)
    (hin : secs.getD r 0 - secs.getD l 0 ≤ 300)
    (hout : ∀ i < l, 300 < secs.getD r 0 - secs.getD i 0) :
    winSpec secs r = r + 1 - l := by
  unfold winSpec
  rw [← List.countP_eq_length_filter]
  rw [List.countP_congr (q := fun i => decide (l ≤ i)) ?_]
  · exact countP_range_le l (r + 1)
  · intro i hi
    simp only [List.mem_range] at hi
    simp only [decide_eq_true_eq]
    constructor
    · intro hwin
      by_contra hneg
      push_neg at hneg
      exact absurd hwin (not_le.mpr (hout i hneg))
    · intro hli
      have hmono : secs.getD l 0 ≤ secs.getD i 0 := sorted_getD_mono hs hli (by omega)
      omega

lemma windowLoop_spec {secs : List Int} (hs : List.Sorted (· ≤ ·) secs) :
    ∀ (rem : List Int) (left right : Nat),
      rem = secs.drop right → left ≤ right →
      (right < secs.length → ∀ i < left, 300 < secs.getD right 0 - secs.getD i 0) →
      windowLoop secs left right rem = (List.range' right rem.length).map (winSpec secs) := by
  intro rem
  induction rem with
  | nil =>
    intro left right _ _ _
    simp [windowLoop]
  | cons sr rem' ih =>
    intro left right hdrop hlr hinv
    have hrlen : right < secs.length := by
      by_contra h
      push_neg at h
      rw [List.drop_eq_nil_iff.mpr h] at hdrop
      exact List.noConfusion hdrop
    rw [List.drop_eq_getElem_cons hrlen] at hdrop
    injection hdrop with hsr hrem'
    have hsr' : sr = secs.getD right 0 := by
      rw [List.getD_eq_getElem _ _ hrlen]; exact hsr
    have hge : left ≤ advanceLeft secs sr left (right - left) := advanceLeft_ge _ _ _ _
    have hle : advanceLeft secs sr left (right - left) ≤ right :=
      le_trans (advanceLeft_le _ _ _ _) (by omega)
    have hout : ∀ i < advanceLeft secs sr left (right - left),
        300 < secs.getD right 0 - secs.getD i 0 := by
      intro i hi
      by_cases hil : i < left
      · exact hinv hrlen i hil
      · rw [← hsr']
        exact advanceLeft_out secs sr (right - left) left i (by omega) hi
    have hin : secs.getD right 0 - secs.getD (advanceLeft secs sr left (right - left)) 0 ≤ 300 := by
      rcases advanceLeft_stop secs sr (right - left) left with h | h
      · rw [h]
        have heq : left + (right - left) = right := by omega
        rw [heq]
        omega
      · rw [← hsr']
        exact h
    have hwin : winSpec secs right = right + 1 - advanceLeft secs sr left (right - left) :=
      winSpec_eq_count hs hle hrlen hin hout
    simp only [windowLoop]
    rw [ih (advanceLeft secs sr left (right - left)) (right + 1) hrem' (by omega) ?_]
    · simp only [List.length_cons, List.range'_succ, List.map_cons]
      congr 1
      rw [hwin]
      omega
    · intro hlen i hi
      have h1 : 300 < secs.getD right 0 - secs.getD i 0 := hout i hi
      have h2 : secs.getD right 0 ≤ secs.getD (right + 1) 0 :=
        sorted_getD_mono hs (by omega) hlen
      omega

lemma windowCounts_spec {secs : List Int} (hs : List.Sorted (· ≤ ·) secs) :
    windowCounts secs = (List.range secs.length).map (winSpec secs) := by
  rw [windowCounts, List.range_eq_range']
  exact windowLoop_spec hs secs 0 0 (by simp) (le_refl 0) (by intro _ i hi; omega)

lemma sortedSecs_sorted (times : List PyDateTime) : List.Sorted (· ≤ ·) (sortedSecs times) :=
  List.sorted_insertionSort _ _

lemma clusterLoop_none_spec {secs : List Int} (hs : List.Sorted (· ≤ ·) secs) :
    ∀ (rem : List Int) (left right : Nat),
      rem = secs.drop right → left ≤ right →
      (right < secs.length → ∀ i < left, 300 < secs.getD right 0 - secs.getD i 0) →
      clusterLoop secs left right rem = none →
      ∀ r', right ≤ r' → r' < secs.length → winSpec secs r' < 10 := by
  intro rem
  induction rem with
  | nil =>
    intro left right hdrop _ _ _ r' hr1 hr2
    exfalso
    have hlen : secs.length ≤ right := by
      by_contra h
      push_neg at h
      rw [List.drop_eq_getElem_cons h] at hdrop
      exact List.noConfusion hdrop
    omega
  | cons sr rem' ih =>
    intro left right hdrop hlr hinv hnone r' hr1 hr2
    have hrlen : right < secs.length := by
      by_contra h
      push_neg at h
      rw [List.drop_eq_nil_iff.mpr h] at hdrop
      exact List.noConfusion hdrop
    rw [List.drop_eq_getElem_cons hrlen] at hdrop
    injection hdrop with hsr hrem'
    have hsr' : sr = secs.getD right 0 := by
      rw [List.getD_eq_getElem _ _ hrlen]; exact hsr
    have hge : left ≤ advanceLeft secs sr left (right - left) := advanceLeft_ge _ _ _ _
    have hle : advanceLeft secs sr left (right - left) ≤ right :=
      le_trans (advanceLeft_le _ _ _ _) (by omega)
    have hout : ∀ i < advanceLeft secs sr left (right - left),
        300 < secs.getD right 0 - secs.getD i 0 := by
      intro i hi
      by_cases hil : i < left
      · exact hinv hrlen i hil
      · rw [← hsr']
        exact advanceLeft_out secs sr (right - left) left i (by omega) hi
    have hin : secs.getD right 0 - secs.getD (advanceLeft secs sr left (right - left)) 0 ≤ 300 := by
      rcases advanceLeft_stop secs sr (right - left) left with h | h
      · rw [h]
        have heq : left + (right - left) = right := by omega
        rw [heq]
        omega
      · rw [← hsr']
        exact h
    have hwin : winSpec secs right = right + 1 - advanceLeft secs sr left (right - left) :=
      winSpec_eq_count hs hle hrlen hin hout
    simp only [clusterLoop] at hnone
    by_cases hcond : 10 ≤ right - advanceLeft secs sr left (right - left) + 1
    · rw [if_pos hcond] at hnone
      exact Option.noConfusion hnone
    · rw [if_neg hcond] at hnone
      rcases Nat.eq_or_lt_of_le hr1 with rfl | hlt
      · rw [hwin]; omega
      · refine ih (advanceLeft secs sr left (right - left)) (right + 1) hrem' (by omega)
          ?_ hnone r' hlt hr2
        intro hlen i hi
        have h1 : 300 < secs.getD right 0 - secs.getD i 0 := hout i hi
        have h2 : secs.getD right 0 ≤ secs.getD (right + 1) 0 :=
          sorted_getD_mono hs (by omega) hlen
        omega

lemma clusterLoop_some_spec {secs : List Int} (hs : List.Sorted (· ≤ ·) secs) :
    ∀ (rem : List Int) (left right l r : Nat),
      rem = secs.drop right → left ≤ right →
      (right < secs.length → ∀ i < left, 300 < secs.getD right 0 - secs.getD i 0) →
      right - left ≤ 9 →
      clusterLoop secs left right rem = some (l, r) →
      right ≤ r ∧ r < secs.length ∧ l ≤ r ∧ r - l + 1 = 10 ∧ winSpec secs r = 10 ∧
        secs.getD r 0 - secs.getD l 0 ≤ 300 ∧
        (∀ r'', right ≤ r'' → r'' < r → winSpec secs r'' < 10) := by
  intro rem
  induction rem with
  | nil =>
    intro left right l r _ _ _ _ hsome
    simp [clusterLoop] at hsome
  | cons sr rem' ih =>
    intro left right l r hdrop hlr hinv hbound hsome
    have hrlen : right < secs.length := by
      by_contra h
      push_neg at h
      rw [List.drop_eq_nil_iff.mpr h] at hdrop
      exact List.noConfusion hdrop
    rw [List.drop_eq_getElem_cons hrlen] at hdrop
    injection hdrop with hsr hrem'
    have hsr' : sr = secs.getD right 0 := by
      rw [List.getD_eq_getElem _ _ hrlen]; exact hsr
    have hge : left ≤ advanceLeft secs sr left (right - left) := advanceLeft_ge _ _ _ _
    have hle : advanceLeft secs sr left (right - left) ≤ right :=
      le_trans (advanceLeft_le _ _ _ _) (by omega)
    have hout : ∀ i < advanceLeft secs sr left (right - left),
        300 < secs.getD right 0 - secs.getD i 0 := by
      intro i hi
      by_cases hil : i < left
      · exact hinv hrlen i hil
      · rw [← hsr']
        exact advanceLeft_out secs sr (right - left) left i (by omega) hi
    have hin : secs.getD right 0 - secs.getD (advanceLeft secs sr left (right - left)) 0 ≤ 300 := by
      rcases advanceLeft_stop secs sr (right - left) left with h | h
      · rw [h]
        have heq : left + (right - left) = right := by omega
        rw [heq]
        omega
      · rw [← hsr']
        exact h
    have hwin : winSpec secs right = right + 1 - advanceLeft secs sr left (right - left) :=
      winSpec_eq_count hs hle hrlen hin hout
    simp only [clusterLoop] at hsome
    by_cases hcond : 10 ≤ right - advanceLeft secs sr left (right - left) + 1
    · rw [if_pos hcond] at hsome
      injection hsome with hsome'
      injection hsome' with hl hr
      subst hl
      subst hr
      refine ⟨le_refl _, hrlen, hle, by omega, by rw [hwin]; omega, hin, ?_⟩
      intro r'' h1 h2
      omega
    · rw [if_neg hcond] at hsome
      obtain ⟨ha, hb, hc, hd, he, hf, hg⟩ :=
        ih (advanceLeft secs sr left (right - left)) (right + 1) l r hrem' (by omega)
          (by
            intro hlen i hi
            have h1 : 300 < secs.getD right 0 - secs.getD i 0 := hout i hi
            have h2 : secs.getD right 0 ≤ secs.getD (right + 1) 0 :=
              sorted_getD_mono hs (by omega) hlen
            omega)
          (by omega) hsome
      refine ⟨by omega, hb, hc, hd, he, hf, ?_⟩
      intro r'' h1 h2
      rcases Nat.eq_or_lt_of_le h1 with rfl | hlt
      · rw [hwin]; omega
      · exact hg r'' hlt h2

lemma winSpec_ge_span {secs : List Int} (hs : List.Sorted (· ≤ ·) secs)
    {i j : Nat} (hij : i ≤ j) (hj : j < secs.length)
    (hspan : secs.getD j 0 - secs.getD i 0 ≤ 300) :
    j + 1 - i ≤ winSpec secs j := by
  unfold winSpec
  rw [← List.countP_eq_length_filter]
  rw [← countP_range_le i (j + 1)]
  refine List.countP_mono_left ?_
  intro k hk
  simp only [List.mem_range] at hk
  simp only [decide_eq_true_eq]
  intro hik
  have hmono : secs.getD i 0 ≤ secs.getD k 0 := sorted_getD_mono hs hik (by omega)
  omega

/-- Claim C4: per endpoint, one `error_cluster` anomaly is emitted exactly
when some 300-second span of the sorted error-timestamp sequence holds at
least 10 errors; the reported window is the first (leftmost right endpoint)
whose trailing window reaches 10, its span and count are reported, and the
severity is `critical` exactly above a count of 50 (`high` otherwise).  The
scan returns at most one window per endpoint, so exactly one anomaly arises. -/
theorem c4_error_cluster_first_window (ep : String) (err_times : List PyDateTime) :
    ((clusterAnomalyFor ep err_times).isSome ↔
      ∃ i j, i ≤ j ∧ j < (sortedSecs err_times).length ∧ 10 ≤ j - i + 1 ∧
        (sortedSecs err_times).getD j 0 - (sortedSecs err_times).getD i 0 ≤ 300) ∧
    (∀ a, clusterAnomalyFor ep err_times = some a →
      ∃ l r, clusterLoop (sortedSecs err_times) 0 0 (sortedSecs err_times) = some (l, r) ∧
        a = Anomaly.error_cluster ep ((sortedSecs err_times).getD l 0)
          ((sortedSecs err_times).getD r 0) (r - l + 1)
          (if 50 < r - l + 1 then "critical" else "high") ∧
        10 ≤ r - l + 1 ∧ winSpec (sortedSecs err_times) r = r - l + 1 ∧
        (sortedSecs err_times).getD r 0 - (sortedSecs err_times).getD l 0 ≤ 300 ∧
        (∀ r' < r, winSpec (sortedSecs err_times) r' < 10)) := by
  have hs := sortedSecs_sorted err_times
  by_cases hne : err_times = []
  · subst hne
    constructor
    · simp [clusterAnomalyFor, sortedSecs, sortInts]
    · intro a ha
      simp [clusterAnomalyFor] at ha
  · constructor
    · constructor
      · intro hsome
        simp only [clusterAnomalyFor, if_neg hne] at hsome
        rcases hm : clusterLoop (sortedSecs err_times) 0 0 (sortedSecs err_times) with _ | ⟨l, r⟩
        · rw [hm] at hsome
          simp at hsome
        · obtain ⟨_, hb, hc, hd, _, hf, _⟩ :=
            clusterLoop_some_spec hs (sortedSecs err_times) 0 0 l r rfl (le_refl 0)
              (by intro _ i hi; omega) (by omega) hm
          exact ⟨l, r, hc, hb, by omega, hf⟩
      · intro ⟨i, j, hij, hj, hcount, hspan⟩
        simp only [clusterAnomalyFor, if_neg hne]
        rcases hm : clusterLoop (sortedSecs err_times) 0 0 (sortedSecs err_times) with _ | ⟨l, r⟩
        · exfalso
          have hnone := clusterLoop_none_spec hs (sortedSecs err_times) 0 0 rfl (le_refl 0)
            (by intro _ i' hi'; omega) hm
          have hge := winSpec_ge_span hs hij hj hspan
          have hlt := hnone j (by omega) hj
          omega
        · simp
    · intro a ha
      simp only [clusterAnomalyFor, if_neg hne] at ha
      rcases hm : clusterLoop (sortedSecs err_times) 0 0 (sortedSecs err_times) with _ | ⟨l, r⟩
      · rw [hm] at ha
        exact Option.noConfusion ha
      · rw [hm] at ha
        injection ha with ha'
        obtain ⟨_, hb, hc, hd, he, hf, hg⟩ :=
          clusterLoop_some_spec hs (sortedSecs err_times) 0 0 l r rfl (le_refl 0)
            (by intro _ i hi; omega) (by omega) hm
        exact ⟨l, r, hm ▸ rfl, ha'.symm, by omega, by omega, hf,
          fun r' hr' => hg r' (by omega) hr'⟩

/-- Claim C10: every `error_cluster` anomaly the engine can emit carries
`error_count` exactly 10 and severity `"high"`: the scan stops at the first
window reaching 10 errors and the window grows by at most one element per
step, so the first qualifying window holds exactly 10 errors and the
`critical` branch (count above 50) is unreachable. -/
theorem c10_error_cluster_count_always_ten (ep : String) (err_times : List PyDateTime) :
    ∀ a, clusterAnomalyFor ep err_times = some a →
      ∃ ws we, a = Anomaly.error_cluster ep ws we 10 "high" := by
  have hs := sortedSecs_sorted err_times
  intro a ha
  by_cases hne : err_times = []
  · subst hne
    simp [clusterAnomalyFor] at ha
  · simp only [clusterAnomalyFor, if_neg hne] at ha
    rcases hm : clusterLoop (sortedSecs err_times) 0 0 (sortedSecs err_times) with _ | ⟨l, r⟩
    · rw [hm] at ha
      exact Option.noConfusion ha
    · rw [hm] at ha
      injection ha with ha'
      obtain ⟨_, _, _, hd, _, _, _⟩ :=
        clusterLoop_some_spec hs (sortedSecs err_times) 0 0 l r rfl (le_refl 0)
          (by intro _ i hi; omega) (by omega) hm
      refine ⟨(sortedSecs err_times).getD l 0, (sortedSecs err_times).getD r 0, ?_⟩
      rw [← ha', hd]
      norm_num

/-- Witness for C10: ten errors in the same second yield exactly the
count-10, high-severity cluster anomaly. -/
theorem c10_error_cluster_count_always_ten_witness :
    ∃ ws we, Anomaly.error_cluster "/api/e" 1736935200 1736935200 10 "high" =
      Anomaly.error_cluster "/api/e" ws we 10 "high" :=
  c10_error_cluster_count_always_ten "/api/e" tenErrorTimes
    (Anomaly.error_cluster "/api/e" 1736935200 1736935200 10 "high") rfl

lemma foldl_max_mem (l : List Nat) : ∀ a, l.foldl max a = a ∨ l.foldl max a ∈ l := by
  induction l with
  | nil => intro a; left; rfl
  | cons b t ih =>
    intro a
    simp only [List.foldl_cons]
    rcases ih (max a b) with h | h
    · rcases max_choice a b with hm | hm
      · left; rw [h, hm]
      · right; rw [h, hm]; exact List.mem_cons_self b t
    · right; exact List.mem_cons_of_mem b h

lemma windowCounts_length {secs : List Int} (hs : List.Sorted (· ≤ ·) secs) :
    (windowCounts secs).length = secs.length := by
  rw [windowCounts_spec hs, List.length_map, List.length_range]

lemma getD_indexOf {α : Type} [DecidableEq α] {l : List α} {v : α} (d : α) (h : v ∈ l) :
    l.getD (l.indexOf v) d = v := by
  have hlt := List.indexOf_lt_length.mpr h
  rw [List.getD_eq_getElem _ _ hlt]
  exact List.getElem_indexOf hlt

lemma getD_ne_of_lt_indexOf {α : Type} [DecidableEq α] {v : α} (d : α) :
    ∀ (l : List α) (k : Nat), k < l.indexOf v → l.getD k d ≠ v := by
  intro l
  induction l with
  | nil => intro k hk; simp [List.indexOf] at hk
  | cons a t ih =>
    intro k hk
    by_cases hav : a = v
    · rw [List.indexOf_cons] at hk
      simp [hav] at hk
    · rw [List.indexOf_cons] at hk
      have hbeq : (a == v) = false := beq_eq_false_iff_ne.mpr hav
      rw [hbeq] at hk
      simp only [cond_false] at hk
      match k with
      | 0 => simpa [List.getD] using hav
      | k + 1 =>
        simp only [List.getD_cons_succ]
        exact ih k (by omega)

/-- Claim C3: per endpoint, the spike scan's window counts are, for every
right-endpoint position of the sorted (whole-second) timestamp sequence, the
number of events in the trailing 300 seconds inclusive (an event exactly 300
seconds older is still inside); a `request_spike` anomaly arises exactly when
`avg_rate > 0`, `peak > 3 * avg_rate` and `peak ≥ 10`, with severity `high`
exactly when `peak > 50` (`medium` otherwise), and the reported timestamp is
the one at the first window position achieving the peak count. -/
theorem c3_request_spike_window_rule (ep : String) (times : List PyDateTime) :
    windowCounts (sortedSecs times) =
      (List.range (sortedSecs times).length).map (winSpec (sortedSecs times)) ∧
    ((spikeAnomalyFor ep times).isSome ↔
      times ≠ [] ∧ 0 < spikeAvgRate times ∧
        3 * spikeAvgRate times < (spikePeak times : ℚ) ∧ 10 ≤ spikePeak times) ∧
    (∀ a, spikeAnomalyFor ep times = some a →
      a = Anomaly.request_spike ep
          ((sortedSecs times).getD
            ((windowCounts (sortedSecs times)).indexOf (spikePeak times)) 0)
          (spikeAvgRate times) (spikePeak times)
          (if 50 < spikePeak times then "high" else "medium") ∧
      (windowCounts (sortedSecs times)).getD
          ((windowCounts (sortedSecs times)).indexOf (spikePeak times)) 0 =
        spikePeak times ∧
      ∀ k < (windowCounts (sortedSecs times)).indexOf (spikePeak times),
        (windowCounts (sortedSecs times)).getD k 0 ≠ spikePeak times) := by
  have hs := sortedSecs_sorted times
  refine ⟨windowCounts_spec hs, ?_, ?_⟩
  · by_cases hne : times = []
    · subst hne
      simp [spikeAnomalyFor]
    · simp only [spikeAnomalyFor, if_neg hne]
      by_cases hcond : 0 < spikeAvgRate times ∧
          3 * spikeAvgRate times < (spikePeak times : ℚ) ∧ 10 ≤ spikePeak times
      · rw [if_pos hcond]
        simp only [Option.isSome_some, true_iff]
        exact ⟨hne, hcond⟩
      · rw [if_neg hcond]
        simp only [Option.isSome_none, Bool.false_eq_true, false_iff]
        intro ⟨_, h2, h3, h4⟩
        exact hcond ⟨h2, h3, h4⟩
  · intro a ha
    by_cases hne : times = []
    · subst hne
      simp [spikeAnomalyFor] at ha
    · simp only [spikeAnomalyFor, if_neg hne] at ha
      by_cases hcond : 0 < spikeAvgRate times ∧
          3 * spikeAvgRate times < (spikePeak times : ℚ) ∧ 10 ≤ spikePeak times
      · rw [if_pos hcond] at ha
        have hpeak_pos : 0 < spikePeak times := by
          have := hcond.2.2
          omega
        have hpeak_mem : spikePeak times ∈ windowCounts (sortedSecs times) := by
          rcases foldl_max_mem (windowCounts (sortedSecs times)) 0 with h | h
          · exfalso
            rw [spikePeak] at hpeak_pos
            omega
          · exact h
        have hidx : (windowCounts (sortedSecs times)).indexOf (spikePeak times) <
            (sortedSecs times).length := by
          rw [← windowCounts_length hs]
          exact List.indexOf_lt_length.mpr hpeak_mem
        have hmem_secs : (sortedSecs times).getD
            ((windowCounts (sortedSecs times)).indexOf (spikePeak times)) 0 ∈
            sortedSecs times := by
          rw [List.getD_eq_getElem _ _ hidx]
          exact List.getElem_mem hidx
        refine ⟨?_, getD_indexOf 0 hpeak_mem,
          fun k hk => getD_ne_of_lt_indexOf 0 _ k hk⟩
        injection ha with ha'
        rw [← ha', getD_indexOf 0 hmem_secs]
      · rw [if_neg hcond] at ha
        exact Option.noConfusion ha

lemma round4_intCast_mul (k : ℤ) : round4 ((k : ℚ) * 0.0001) = (k : ℚ) * 0.0001 := by
  unfold round4
  have h1 : ((k : ℚ) * 0.0001) * 10000 = (k : ℚ) := by
    rw [mul_assoc]
    norm_num
  rw [h1, round_intCast]
  have h2 : (0.0001 : ℚ) = 1 / 10000 := by norm_num
  rw [h2]
  ring

/-- Claim C6: an endpoint enters `caching_opportunities` exactly when its
count exceeds 100, its GET share exceeds 80 percent, its error rate is below
2 percent and its response-time spread is below 500 ms; the emitted entry
carries `floor(count * 0.8)` saved requests, the truncated GET percentage as
hit rate, the saved count times 0.0001 dollars (the 4-decimal rounding is the
identity there), a fixed 15-minute TTL and the fixed `"high"` confidence.
The spec's example aggregate (150 requests, 143 GET, no errors, 100 ms
spread) yields `potential_requests_saved = 120`. -/
theorem c6_caching_opportunity_rule (ep : String) (d : EpInfo) :
    ((cachingFor ep d).isSome ↔
      100 < d.count ∧ (0.8 : ℚ) < getRatio d ∧ epErrRate d < 2 ∧
        d.max_response.getD 0 - d.min_response.getD 0 < 500) ∧
    (∀ c, cachingFor ep d = some c →
      c.endpoint = ep ∧ c.current_requests = d.count ∧
      c.potential_requests_saved = ⌊(d.count : ℚ) * 0.8⌋ ∧
      c.potential_cache_hit_rate = ⌊getRatio d * 100⌋ ∧
      c.estimated_cost_savings_usd = (c.potential_requests_saved : ℚ) * 0.0001 ∧
      c.recommended_ttl_minutes = 15 ∧ c.recommendation_confidence = "high") ∧
    cachingFor ep epInfo150 = some
      { endpoint := ep, potential_cache_hit_rate := 95, current_requests := 150,
        potential_requests_saved := 120, estimated_cost_savings_usd := 3 / 250,
        recommended_ttl_minutes := 15, recommendation_confidence := "high" } := by
  refine ⟨?_, ?_, ?_⟩
  · by_cases h1 : d.count < 1
    · simp only [cachingFor, if_pos h1]
      simp only [Option.isSome_none, Bool.false_eq_true, false_iff]
      intro ⟨h2, _, _, _⟩
      omega
    · simp only [cachingFor, if_neg h1]
      by_cases hc : 100 < d.count ∧ (0.8 : ℚ) < getRatio d ∧ epErrRate d < 2 ∧
          d.max_response.getD 0 - d.min_response.getD 0 < 500
      · rw [if_pos hc]
        simp only [Option.isSome_some, true_iff]
        exact hc
      · rw [if_neg hc]
        simp only [Option.isSome_none, Bool.false_eq_true, false_iff]
        exact hc
  · intro c hc
    by_cases h1 : d.count < 1
    · simp only [cachingFor, if_pos h1] at hc
      exact Option.noConfusion hc
    · simp only [cachingFor, if_neg h1] at hc
      by_cases hcond : 100 < d.count ∧ (0.8 : ℚ) < getRatio d ∧ epErrRate d < 2 ∧
          d.max_response.getD 0 - d.min_response.getD 0 < 500
      · rw [if_pos hcond] at hc
        injection hc with hc'
        subst hc'
        refine ⟨rfl, rfl, rfl, rfl, ?_, rfl, rfl⟩
        exact round4_intCast_mul _
      · rw [if_neg hcond] at hc
        exact Option.noConfusion hc
  · have hget : (dictGetD epInfo150.methods "GET" 0 : Nat) = 143 := rfl
    have hcount : epInfo150.count = 150 := rfl
    have hratio : getRatio epInfo150 = 143 / 150 := by
      rw [getRatio, hget, hcount]
      norm_num
    have herr : epErrRate epInfo150 = 0 := by
      rw [epErrRate]
      norm_num [epInfo150]
    have hcons : epInfo150.max_response.getD 0 - epInfo150.min_response.getD 0 = 100 := by
      norm_num [epInfo150]
    simp only [cachingFor]
    rw [if_neg (by norm_num [epInfo150])]
    rw [if_pos ?_]
    · have hfloor1 : ⌊(epInfo150.count : ℚ) * 0.8⌋ = 120 := by
        rw [hcount]
        have : ((150 : Nat) : ℚ) * 0.8 = 120 := by norm_num
        rw [this]
        have h120 : (120 : ℚ) = ((120 : ℤ) : ℚ) := by norm_num
        rw [h120, Int.floor_intCast]
      have hfloor2 : ⌊getRatio epInfo150 * 100⌋ = 95 := by
        rw [hratio]
        rw [Int.floor_eq_iff]
        constructor
        · norm_num
        · norm_num
      rw [hfloor1, hfloor2, hcount]
      have hsave : round4 ((120 : ℤ) * 0.0001) = 3 / 250 := by
        have := round4_intCast_mul 120
        rw [this]
        norm_num
      rw [hsave]
    · refine ⟨by rw [hcount]; norm_num, by rw [hratio]; norm_num, by rw [herr]; norm_num,
        by rw [hcons]; norm_num⟩

/-- Claim C7: for an endpoint aggregate with positive count the classifier
compares the average response time and the error-rate percentage against
their threshold tables with strict greater-than, picks the highest exceeded
band, emits nothing when no cutoff is exceeded, and runs the two rules
independently (one endpoint can emit both issues, as the final concrete
aggregate shows). -/
theorem c7_classifier_band_rules (ep : String) (d : EpInfo) (h : 0 < d.count) :
    (slowSeverity (epAvg d) = some "critical" ↔ 2000 < epAvg d) ∧
    (slowSeverity (epAvg d) = some "high" ↔ 1000 < epAvg d ∧ epAvg d ≤ 2000) ∧
    (slowSeverity (epAvg d) = some "medium" ↔ 500 < epAvg d ∧ epAvg d ≤ 1000) ∧
    (slowSeverity (epAvg d) = none ↔ epAvg d ≤ 500) ∧
    (errSeverity (epErrRate d) = some "critical" ↔ 15 < epErrRate d) ∧
    (errSeverity (epErrRate d) = some "high" ↔ 10 < epErrRate d ∧ epErrRate d ≤ 15) ∧
    (errSeverity (epErrRate d) = some "medium" ↔ 5 < epErrRate d ∧ epErrRate d ≤ 10) ∧
    (errSeverity (epErrRate d) = none ↔ epErrRate d ≤ 5) ∧
    issuesFor ep d =
      ((slowSeverity (epAvg d)).map
        (fun sev => Issue.slow_endpoint ep (epAvg d) RESPONSE_THRESHOLDS.medium sev)).toList ++
      ((errSeverity (epErrRate d)).map
        (fun sev => Issue.high_error_rate ep (epErrRate d) sev)).toList ∧
    issuesFor ep slowAndErrorEpInfo =
      [Issue.slow_endpoint ep 2500 RESPONSE_THRESHOLDS.medium "critical",
       Issue.high_error_rate ep 100 "critical"] := by
  have hslow : ∀ x : ℚ,
      (slowSeverity x = some "critical" ↔ 2000 < x) ∧
      (slowSeverity x = some "high" ↔ 1000 < x ∧ x ≤ 2000) ∧
      (slowSeverity x = some "medium" ↔ 500 < x ∧ x ≤ 1000) ∧
      (slowSeverity x = none ↔ x ≤ 500) := by
    intro x
    unfold slowSeverity RESPONSE_THRESHOLDS
    split_ifs with h1 h2 h3 <;>
      refine ⟨?_, ?_, ?_, ?_⟩ <;> simp_all <;>
        first
          | linarith
          | (intro hx; linarith)
          | (rintro ⟨hx, hy⟩; linarith)
  have herr : ∀ x : ℚ,
      (errSeverity x = some "critical" ↔ 15 < x) ∧
      (errSeverity x = some "high" ↔ 10 < x ∧ x ≤ 15) ∧
      (errSeverity x = some "medium" ↔ 5 < x ∧ x ≤ 10) ∧
      (errSeverity x = none ↔ x ≤ 5) := by
    intro x
    unfold errSeverity ERROR_RATE_THRESHOLDS
    split_ifs with h1 h2 h3 <;>
      refine ⟨?_, ?_, ?_, ?_⟩ <;> simp_all <;>
        first
          | linarith
          | (intro hx; linarith)
          | (rintro ⟨hx, hy⟩; linarith)
  obtain ⟨hs1, hs2, hs3, hs4⟩ := hslow (epAvg d)
  obtain ⟨he1, he2, he3, he4⟩ := herr (epErrRate d)
  refine ⟨hs1, hs2, hs3, hs4, he1, he2, he3, he4, ?_, ?_⟩
  · cases hx : slowSeverity (epAvg d) <;> cases hy : errSeverity (epErrRate d) <;>
      simp [issuesFor, hx, hy]
  · have havg : epAvg slowAndErrorEpInfo = 2500 := by
      rw [epAvg]
      norm_num [slowAndErrorEpInfo]
    have herate : epErrRate slowAndErrorEpInfo = 100 := by
      rw [epErrRate]
      norm_num [slowAndErrorEpInfo]
    have h1 : slowSeverity (epAvg slowAndErrorEpInfo) = some "critical" := by
      rw [(hslow _).1, havg]
      norm_num
    have h2 : errSeverity (epErrRate slowAndErrorEpInfo) = some "critical" := by
      rw [(herr _).1, herate]
      norm_num
    rw [havg] at h1
    rw [herate] at h2
    simp [issuesFor, havg, herate, h1, h2]

lemma most_common_head {α : Type} (l : List (α × Nat)) (hne : l ≠ []) :
    ∃ u c, (most_common l).head? = some (u, c) ∧ (u, c) ∈ l ∧ ∀ p ∈ l, p.2 ≤ c := by
  have hperm := List.perm_insertionSort byCountDesc l
  have hsorted := List.sorted_insertionSort byCountDesc l
  have hne' : most_common l ≠ [] := by
    intro h
    rw [most_common] at h
    rw [h] at hperm
    exact hne hperm.nil_eq.symm
  obtain ⟨x, t, hxt⟩ := List.exists_cons_of_ne_nil hne'
  have hsorted' : List.Sorted byCountDesc (x :: t) := by
    rw [most_common] at hxt
    rw [← hxt]
    exact hsorted
  refine ⟨x.1, x.2, ?_, ?_, ?_⟩
  · rw [hxt]
    simp
  · have hx : x ∈ most_common l := by
      rw [hxt]
      exact List.mem_cons_self x t
    have := hperm.mem_iff.mp (by rw [most_common] at hx; exact hx)
    simpa using this
  · intro p hp
    have hp' : p ∈ x :: t := by
      rw [← hxt, most_common]
      exact hperm.mem_iff.mpr hp
    rcases List.mem_cons.mp hp' with rfl | hpt
    · exact le_refl _
    · exact (List.sorted_cons.mp hsorted').1 p hpt

/-- Claim C8: the user consulted is the one `most_common(1)` returns — a user
of maximal request count — and the `unusual_user_behavior` anomaly (with that
user's id, count and severity `high`) is emitted exactly when that count
strictly exceeds half of all valid requests: 60 of 100 is flagged, exactly 50
of 100 is not. -/
theorem c8_unusual_user_majority_rule (user_counts : List (String × Nat))
    (hne : user_counts ≠ []) (hpos : 0 < counterTotal user_counts) :
    (∃ top_user top_count,
      (most_common user_counts).head? = some (top_user, top_count) ∧
      (top_user, top_count) ∈ user_counts ∧
      (∀ p ∈ user_counts, p.2 ≤ top_count) ∧
      (userAnomaly user_counts =
          some (Anomaly.unusual_user_behavior top_user top_count "high") ↔
        counterTotal user_counts < 2 * top_count) ∧
      (userAnomaly user_counts = none ↔ 2 * top_count ≤ counterTotal user_counts)) ∧
    userAnomaly [("heavy", 60), ("light", 40)] =
      some (Anomaly.unusual_user_behavior "heavy" 60 "high") ∧
    userAnomaly [("even1", 50), ("even2", 50)] = none := by
  refine ⟨?_, ?_, ?_⟩
  · obtain ⟨u, c, hhead, hmem, hmax⟩ := most_common_head user_counts hne
    have hkey : ((1 : ℚ) / 2 < (c : ℚ) / (counterTotal user_counts : ℚ)) ↔
        counterTotal user_counts < 2 * c := by
      rw [div_lt_div_iff (by norm_num) (by exact_mod_cast hpos)]
      rw [one_mul]
      constructor
      · intro hq
        have : (counterTotal user_counts : ℚ) < (2 * c : Nat) := by push_cast; linarith
        exact_mod_cast this
      · intro hn
        have : (counterTotal user_counts : ℚ) < (2 * c : Nat) := by exact_mod_cast hn
        push_cast at this
        linarith
    refine ⟨u, c, hhead, hmem, hmax, ?_, ?_⟩
    · simp only [userAnomaly, hhead]
      by_cases hlt : counterTotal user_counts < 2 * c
      · rw [if_pos (hkey.mpr hlt)]
        simp [hlt]
      · rw [if_neg (fun hq => hlt (hkey.mp hq))]
        simp [hlt]
    · simp only [userAnomaly, hhead]
      by_cases hlt : counterTotal user_counts < 2 * c
      · rw [if_pos (hkey.mpr hlt)]
        simp
        omega
      · rw [if_neg (fun hq => hlt (hkey.mp hq))]
        simp
        omega
  · have h1 : (most_common [("heavy", 60), ("light", 40)]).head? = some ("heavy", 60) := rfl
    have h2 : counterTotal [("heavy", 60), ("light", 40)] = 100 := rfl
    simp only [userAnomaly, h1, h2]
    rw [if_pos (by norm_num)]
  · have h1 : (most_common [("even1", 50), ("even2", 50)]).head? = some ("even1", 50) := rfl
    have h2 : counterTotal [("even1", 50), ("even2", 50)] = 100 := rfl
    simp only [userAnomaly, h1, h2]
    rw [if_neg (by norm_num)]

lemma validRecord_false_iff (r : RawRecord) : validRecord r = false ↔ validate r = none := by
  unfold validRecord
  cases validate r <;> simp

lemma foldlM_filter_valid (logs : List RawRecord) :
    ∀ s : AccState, List.foldlM step s (logs.filter validRecord) = List.foldlM step s logs := by
  induction logs with
  | nil => intro s; rfl
  | cons r rest ih =>
    intro s
    by_cases hv : validRecord r
    · rw [List.filter_cons_of_pos hv, List.foldlM_cons, List.foldlM_cons]
      exact bind_congr (fun s' => ih s')
    · rw [List.filter_cons_of_neg (by simpa using hv), List.foldlM_cons]
      have hstep : step s r = Except.ok s := by
        unfold step
        rw [(validRecord_false_iff r).mp (by simpa using hv)]
      rw [hstep]
      exact ih s

lemma sumCounts_dictSet_upd (key : String) (rt : ℚ) (status : ℤ) (m : String) :
    ∀ l : List (String × EpInfo),
      sumCounts (dictSet l key EpInfo.init (updEpInfo rt status m)) = sumCounts l + 1 := by
  intro l
  induction l with
  | nil => simp [sumCounts, dictSet, updEpInfo, EpInfo.init]
  | cons p rest ih =>
    by_cases hk : p.1 = key
    · simp only [dictSet, if_pos hk, sumCounts, List.map_cons, List.sum_cons, updEpInfo]
      simp only [sumCounts] at *
      omega
    · simp only [dictSet, if_neg hk, sumCounts, List.map_cons, List.sum_cons]
      simp only [sumCounts] at ih
      omega

lemma accumulate_ok_endpoint_info {s : AccState} {e : LogEvent} {st' : AccState}
    (h : accumulate s e = Except.ok st') :
    st'.endpoint_info = dictSet s.endpoint_info e.endpoint EpInfo.init
      (updEpInfo e.rt e.status e.method) := by
  unfold accumulate at h
  cases h1 : updEarliest s.earliest e.ts with
  | error msg => rw [h1] at h; exact Except.noConfusion h
  | ok earliest =>
    rw [h1] at h
    cases h2 : updLatest s.latest e.ts with
    | error msg => rw [h2] at h; exact Except.noConfusion h
    | ok latest =>
      rw [h2] at h
      injection h with h'
      rw [← h']

lemma processLogs_total (logs : List RawRecord) :
    ∀ s st : AccState, List.foldlM step s logs = Except.ok st →
      sumCounts st.endpoint_info = sumCounts s.endpoint_info + logs.countP validRecord := by
  induction logs with
  | nil =>
    intro s st h
    rw [List.foldlM_nil] at h
    injection h with h'
    rw [h']
    simp
  | cons r rest ih =>
    intro s st h
    rw [List.foldlM_cons] at h
    cases hstep : step s r with
    | error msg =>
      rw [hstep] at h
      exact Except.noConfusion h
    | ok s1 =>
      rw [hstep] at h
      have h' : List.foldlM step s1 rest = Except.ok st := h
      have hrec := ih s1 st h'
      unfold step at hstep
      cases hv : validate r with
      | none =>
        rw [hv] at hstep
        injection hstep with h2
        have hvf : validRecord r = false := (validRecord_false_iff r).mpr hv
        rw [List.countP_cons, hvf]
        subst h2
        simpa using hrec
      | some ev =>
        rw [hv] at hstep
        have hsum : sumCounts s1.endpoint_info = sumCounts s.endpoint_info + 1 := by
          rw [accumulate_ok_endpoint_info hstep]
          exact sumCounts_dictSet_upd _ _ _ _ _
        have hvt : validRecord r = true := by simp [validRecord, hv]
        rw [List.countP_cons, hvt]
        simp only [List.countP_cons]
        norm_num
        omega

lemma assembleReport_total (st : AccState) :
    (assembleReport st).total_requests = sumCounts st.endpoint_info := by
  simp only [assembleReport]
  split_ifs with h
  · simp only [emptyReport]
    simp only [sumCounts]
    omega
  · rfl

/-- Claim C1: whenever an analysis returns a report, its `total_requests` is
exactly the number of raw records that pass validation, and the records that
fail validation contribute nothing to any aggregate: the whole report (every
sum, endpoint count, hourly bucket, user count and time series) is identical
to the one computed from the validated records alone. -/
theorem c1_total_requests_counts_valid (logs : List RawRecord)
    (h : (analyze_api_logs (some logs)).isOk = true) :
    reportTotal (analyze_api_logs (some logs)) = logs.countP validRecord ∧
    analyze_api_logs (some (logs.filter validRecord)) = analyze_api_logs (some logs) := by
  constructor
  · obtain ⟨st, hst⟩ : ∃ st, processLogs logs = Except.ok st := by
      cases hp : processLogs logs with
      | ok st => exact ⟨st, rfl⟩
      | error m =>
        exfalso
        simp only [analyze_api_logs] at h
        rw [hp] at h
        simp [Except.isOk, Except.toBool] at h
    have hrep : analyze_api_logs (some logs) = Except.ok (assembleReport st) := by
      simp only [analyze_api_logs]
      rw [hst]
    rw [hrep]
    show (assembleReport st).total_requests = _
    rw [assembleReport_total]
    have := processLogs_total logs AccState.init st hst
    simpa [AccState.init, sumCounts] using this
  · simp only [analyze_api_logs, processLogs]
    rw [foldlM_filter_valid logs AccState.init]

/-- Witness for C1 at a two-record input, one valid and one invalid. -/
theorem c1_total_requests_counts_valid_witness :
    reportTotal (analyze_api_logs (some [awareRecord, invalidRecord])) =
      List.countP validRecord [awareRecord, invalidRecord] ∧
    analyze_api_logs (some ([awareRecord, invalidRecord].filter validRecord)) =
      analyze_api_logs (some [awareRecord, invalidRecord]) :=
  c1_total_requests_counts_valid [awareRecord, invalidRecord] rfl

lemma dictSet_find_self {β : Type} (key : String) (dfl : β) (f : β → β) :
    ∀ l : List (String × β), (dictSet l key dfl f).find? (fun p => p.1 = key) =
      some (key, f (dictGetD l key dfl)) := by
  intro l
  induction l with
  | nil => simp [dictSet, dictGetD, List.find?]
  | cons p rest ih =>
    by_cases hk : p.1 = key
    · simp [dictSet, hk, dictGetD, List.find?]
    · simp only [dictSet, if_neg hk, List.find?]
      have hpred : (decide (p.1 = key)) = false := by simp [hk]
      rw [hpred]
      simp only [ih]
      simp [dictGetD, List.find?, hpred]

lemma dictSet_find_other {β : Type} (key ep : String) (dfl : β) (f : β → β) (hne : ep ≠ key) :
    ∀ l : List (String × β), (dictSet l key dfl f).find? (fun p => p.1 = ep) =
      l.find? (fun p => p.1 = ep) := by
  intro l
  induction l with
  | nil =>
    simp only [dictSet, List.find?]
    have hne2 : (decide (key = ep)) = false := by
      simp only [decide_eq_false_iff_not]
      exact fun h => hne h.symm
    rw [hne2]
  | cons p rest ih =>
    by_cases hk : p.1 = key
    · simp only [dictSet, if_pos hk, List.find?]
      have : (decide (p.1 = ep)) = false := by
        simp only [decide_eq_false_iff_not]
        rw [hk]
        exact fun h => hne h.symm
      rw [this]
    · simp only [dictSet, if_neg hk, List.find?]
      cases hpe : (decide (p.1 = ep)) with
      | true => rfl
      | false => exact ih

lemma stateEpCount_accumulate {s st' : AccState} {e : LogEvent}
    (h : accumulate s e = Except.ok st') (ep : String) :
    stateEpCount st' ep = stateEpCount s ep + (if ep = e.endpoint then 1 else 0) := by
  have hinfo := accumulate_ok_endpoint_info h
  by_cases hk : ep = e.endpoint
  · subst hk
    simp only [stateEpCount, dictGetD, hinfo, dictSet_find_self, if_pos rfl]
    simp [updEpInfo, dictGetD]
  · simp only [stateEpCount, dictGetD, hinfo, dictSet_find_other _ _ _ _ hk, if_neg hk]
    omega

lemma dictSet_mem_keys {β : Type} (key : String) (dfl : β) (f : β → β) :
    ∀ l : List (String × β), (dictSet l key dfl f).map (fun p => p.1) =
      (if key ∈ l.map (fun p => p.1) then l.map (fun p => p.1)
       else l.map (fun p => p.1) ++ [key]) := by
  intro l
  induction l with
  | nil => simp [dictSet]
  | cons p rest ih =>
    by_cases hk : p.1 = key
    · simp [dictSet, hk]
    · simp only [dictSet, if_neg hk, List.map_cons, ih]
      have hmem : (key ∈ p.1 :: rest.map (fun p => p.1)) ↔ (key ∈ rest.map (fun p => p.1)) := by
        simp only [List.mem_cons]
        constructor
        · intro hor
          rcases hor with heq | hm
          · exact absurd heq.symm hk
          · exact hm
        · exact Or.inr
      by_cases hin : key ∈ rest.map (fun p => p.1)
      · rw [if_pos hin, if_pos (hmem.mpr hin)]
      · rw [if_neg hin, if_neg (fun hmm => hin (hmem.mp hmm))]
        simp

lemma dictSet_values {β : Type} (key : String) (dfl : β) (f : β → β) (P : β → Prop)
    (hP : ∀ b, P (f b)) :
    ∀ l : List (String × β), (∀ p ∈ l, P p.2) → ∀ p ∈ dictSet l key dfl f, P p.2 := by
  intro l
  induction l with
  | nil =>
    intro _ p hp
    simp only [dictSet, List.mem_singleton] at hp
    rw [hp]
    exact hP dfl
  | cons q rest ih =>
    intro hl p hp
    by_cases hk : q.1 = key
    · simp only [dictSet, if_pos hk, List.mem_cons] at hp
      rcases hp with h1 | h1
      · rw [h1]
        exact hP q.2
      · exact hl p (List.mem_cons_of_mem q h1)
    · simp only [dictSet, if_neg hk, List.mem_cons] at hp
      rcases hp with h1 | h1
      · rw [h1]
        exact hl q (List.mem_cons_self q rest)
      · exact ih (fun p' hp' => hl p' (List.mem_cons_of_mem q hp')) p h1

lemma epInvariant_accumulate {s st' : AccState} {e : LogEvent}
    (h : accumulate s e = Except.ok st') (hinv : epInvariant s) : epInvariant st' := by
  have hinfo := accumulate_ok_endpoint_info h
  constructor
  · rw [hinfo, dictSet_mem_keys]
    split_ifs with hmem
    · exact hinv.1
    · rw [List.nodup_append]
      exact ⟨hinv.1, List.nodup_singleton _, by simpa using hmem⟩
  · rw [hinfo]
    exact dictSet_values e.endpoint EpInfo.init (updEpInfo e.rt e.status e.method)
      (fun d => 1 ≤ d.count) (fun b => by simp only [updEpInfo]; omega)
      s.endpoint_info hinv.2

lemma processLogs_invariant (logs : List RawRecord) :
    ∀ s st : AccState, List.foldlM step s logs = Except.ok st → epInvariant s →
      epInvariant st := by
  induction logs with
  | nil =>
    intro s st h hinv
    rw [List.foldlM_nil] at h
    injection h with h'
    rw [← h']
    exact hinv
  | cons r rest ih =>
    intro s st h hinv
    rw [List.foldlM_cons] at h
    cases hstep : step s r with
    | error msg =>
      rw [hstep] at h
      exact Except.noConfusion h
    | ok s1 =>
      rw [hstep] at h
      refine ih s1 st h ?_
      unfold step at hstep
      cases hv : validate r with
      | none =>
        rw [hv] at hstep
        injection hstep with h2
        rw [← h2]
        exact hinv
      | some ev =>
        rw [hv] at hstep
        exact epInvariant_accumulate hstep hinv

lemma find?_congr_perm {α : Type} (p : α → Bool) {l1 l2 : List α} (hperm : l1.Perm l2)
    (huniq : ∀ a ∈ l1, ∀ b ∈ l1, p a → p b → a = b) :
    l1.find? p = l2.find? p := by
  cases h1 : l1.find? p with
  | none =>
    cases h2 : l2.find? p with
    | none => rfl
    | some b =>
      have hb := List.find?_some h2
      have hbm : b ∈ l1 := hperm.mem_iff.mpr (List.mem_of_find?_eq_some h2)
      rw [List.find?_eq_none] at h1
      exact absurd hb (by simpa using h1 b hbm)
  | some a =>
    have ha := List.find?_some h1
    have ham : a ∈ l1 := List.mem_of_find?_eq_some h1
    cases h2 : l2.find? p with
    | none =>
      rw [List.find?_eq_none] at h2
      exact absurd ha (by simpa using h2 a (hperm.mem_iff.mp ham))
    | some b =>
      have hb := List.find?_some h2
      have hbm : b ∈ l1 := hperm.mem_iff.mpr (List.mem_of_find?_eq_some h2)
      rw [huniq a ham b hbm ha hb]

lemma reportEpCount_assemble (st : AccState) (hinv : epInvariant st) (ep : String) :
    reportEpCount (Except.ok (assembleReport st)) ep = stateEpCount st ep := by
  simp only [reportEpCount, assembleReport]
  split_ifs with h
  · have hnil : st.endpoint_info = [] := by
      cases hl : st.endpoint_info with
      | nil => rfl
      | cons p rest =>
        exfalso
        have hp := hinv.2 p (by rw [hl]; exact List.mem_cons_self p rest)
        rw [hl] at h
        simp only [List.map_cons, List.sum_cons] at h
        omega
    simp [emptyReport, stateEpCount, dictGetD, hnil, List.find?, EpInfo.init]
  · have hnodup : ((st.endpoint_info.map (fun p => mkStat p.1 p.2)).map
        (fun s' => s'.endpoint)).Nodup := by
      rw [List.map_map]
      have hcomp : ((fun s' : EndpointStat => s'.endpoint) ∘
          (fun p : String × EpInfo => mkStat p.1 p.2)) =
          fun p : String × EpInfo => p.1 := by
        funext p
        rfl
      rw [hcomp]
      exact hinv.1
    have hfind : (List.insertionSort byRequestCountDesc
        (st.endpoint_info.map (fun p => mkStat p.1 p.2))).find?
          (fun s' => s'.endpoint = ep) =
        (st.endpoint_info.map (fun p => mkStat p.1 p.2)).find?
          (fun s' => s'.endpoint = ep) := by
      refine find?_congr_perm _ (List.perm_insertionSort byRequestCountDesc _) ?_
      intro a ha b hb hpa hpb
      have ha' : a ∈ st.endpoint_info.map (fun p => mkStat p.1 p.2) :=
        (List.perm_insertionSort byRequestCountDesc _).mem_iff.mp ha
      have hb' : b ∈ st.endpoint_info.map (fun p => mkStat p.1 p.2) :=
        (List.perm_insertionSort byRequestCountDesc _).mem_iff.mp hb
      refine List.inj_on_of_nodup_map hnodup ha' hb' ?_
      have hea : a.endpoint = ep := by simpa using hpa
      have heb : b.endpoint = ep := by simpa using hpb
      rw [hea, heb]
    rw [hfind, List.find?_map]
    have hcomp2 : ((fun s' : EndpointStat => decide (s'.endpoint = ep)) ∘
        (fun p : String × EpInfo => mkStat p.1 p.2)) =
        fun p : String × EpInfo => decide (p.1 = ep) := rfl
    rw [hcomp2]
    cases hf : st.endpoint_info.find? (fun p => p.1 = ep) with
    | none => simp [stateEpCount, dictGetD, hf, EpInfo.init]
    | some q => simp [stateEpCount, dictGetD, hf, mkStat]

/-- Claim C9: appending one valid record to an input on which the analysis
succeeds (and still succeeds afterwards) raises `total_requests` by exactly 1
and never lowers the request count any endpoint shows in the report. -/
theorem c9_append_valid_monotone (logs : List RawRecord) (r : RawRecord)
    (hval : validRecord r = true)
    (h1 : (analyze_api_logs (some logs)).isOk = true)
    (h2 : (analyze_api_logs (some (logs ++ [r]))).isOk = true) :
    reportTotal (analyze_api_logs (some (logs ++ [r]))) =
      reportTotal (analyze_api_logs (some logs)) + 1 ∧
    ∀ ep, reportEpCount (analyze_api_logs (some logs)) ep ≤
      reportEpCount (analyze_api_logs (some (logs ++ [r]))) ep := by
  obtain ⟨st, hst⟩ : ∃ st, processLogs logs = Except.ok st := by
    cases hp : processLogs logs with
    | ok st => exact ⟨st, rfl⟩
    | error m =>
      exfalso
      simp only [analyze_api_logs] at h1
      rw [hp] at h1
      simp [Except.isOk, Except.toBool] at h1
  obtain ⟨st2, hst2⟩ : ∃ st2, processLogs (logs ++ [r]) = Except.ok st2 := by
    cases hp : processLogs (logs ++ [r]) with
    | ok st2 => exact ⟨st2, rfl⟩
    | error m =>
      exfalso
      simp only [analyze_api_logs] at h2
      rw [hp] at h2
      simp [Except.isOk, Except.toBool] at h2
  have hsplit : processLogs (logs ++ [r]) = processLogs logs >>= fun s => step s r := by
    unfold processLogs
    rw [List.foldlM_append]
    refine bind_congr ?_
    intro s
    rw [List.foldlM_cons]
    simp only [List.foldlM_nil]
    exact bind_pure (step s r)
  have hlink : step st r = Except.ok st2 := by
    rw [hsplit, hst] at hst2
    exact hst2
  obtain ⟨ev, hev⟩ : ∃ ev, validate r = some ev := by
    unfold validRecord at hval
    cases hv : validate r with
    | none => rw [hv] at hval; simp at hval
    | some e => exact ⟨e, rfl⟩
  have hacc : accumulate st ev = Except.ok st2 := by
    unfold step at hlink
    rw [hev] at hlink
    exact hlink
  have hrep1 : analyze_api_logs (some logs) = Except.ok (assembleReport st) := by
    simp only [analyze_api_logs]
    rw [hst]
  have hrep2 : analyze_api_logs (some (logs ++ [r])) = Except.ok (assembleReport st2) := by
    simp only [analyze_api_logs]
    rw [hst2]
  have hinv0 : epInvariant AccState.init := by
    constructor
    · simp [AccState.init]
    · intro p hp
      simp [AccState.init] at hp
  have hinv : epInvariant st := processLogs_invariant logs AccState.init st hst hinv0
  have hinv2 : epInvariant st2 := by
    refine processLogs_invariant (logs ++ [r]) AccState.init st2 hst2 hinv0
  constructor
  · rw [hrep1, hrep2]
    show (assembleReport st2).total_requests = (assembleReport st).total_requests + 1
    rw [assembleReport_total, assembleReport_total]
    have := accumulate_ok_endpoint_info hacc
    rw [this]
    exact sumCounts_dictSet_upd _ _ _ _ _
  · intro ep
    rw [hrep1, hrep2, reportEpCount_assemble st hinv ep, reportEpCount_assemble st2 hinv2 ep]
    rw [stateEpCount_accumulate hacc ep]
    omega

/-- Witness for C9: appending one valid record to the empty input. -/
theorem c9_append_valid_monotone_witness :
    reportTotal (analyze_api_logs (some ([] ++ [awareRecord]))) =
      reportTotal (analyze_api_logs (some [])) + 1 ∧
    ∀ ep, reportEpCount (analyze_api_logs (some [])) ep ≤
      reportEpCount (analyze_api_logs (some ([] ++ [awareRecord]))) ep :=
  c9_append_valid_monotone [] awareRecord rfl rfl rfl

/-- Witness for C7 at a concrete aggregate that emits both issue kinds. -/
theorem c7_classifier_band_rules_witness :
    issuesFor "/api/pay" slowAndErrorEpInfo =
      [Issue.slow_endpoint "/api/pay" 2500 RESPONSE_THRESHOLDS.medium "critical",
       Issue.high_error_rate "/api/pay" 100 "critical"] :=
  (c7_classifier_band_rules "/api/pay" slowAndErrorEpInfo (by decide)).2.2.2.2.2.2.2.2.2

/-- Witness for C8 at the spec's 60-of-100 and 50-of-100 user counters. -/
theorem c8_unusual_user_majority_rule_witness :
    userAnomaly [("heavy", 60), ("light", 40)] =
      some (Anomaly.unusual_user_behavior "heavy" 60 "high") ∧
    userAnomaly [("even1", 50), ("even2", 50)] = none :=
  ⟨(c8_unusual_user_majority_rule [("heavy", 60), ("light", 40)] (by decide) (by decide)).2.1,
   (c8_unusual_user_majority_rule [("heavy", 60), ("light", 40)] (by decide) (by decide)).2.2⟩
